import Mathlib

set_option linter.unusedSectionVars false

/-!
# Cascaded propagation (`ophCascadedPropagation.cpp`)

A shallow embedding of the cascaded-propagation engine of Openholo
(`src/ophrec/src/ophCascadedPropagation.cpp`) and the properties proved about it.

Conventions of the embedding.

* `Real` (a `double`) is an arbitrary linearly ordered field `R` with a floor
  function; arithmetic is exact.  The `<cmath>` functions, `M_PI`, `DBL_MAX` and
  the transform `fft2` of the base class are fields of `Env`.
* Where a property is about the exact byte the intensity extractor emits, the
  rounding of every arithmetic result to `Real` is a parameter `fl`
  (`getIntensityfieldsRounded`); `fl = id` is the exact arithmetic.
* `oph::uint` values (`nx`, `ny`, `num_colors`, loop counters) are natural
  numbers.  Inside the loops every index expression stays below the size of
  the buffer it addresses, so it is written without reduction; the one
  expression that wraps around, `ny / 2 - 1` in the aperture test, is reduced
  modulo `2 ^ 32` (`uintSub`).
* A heap array (`Complex<Real>*`, `uchar*`, `Real*`) is a function from the
  index to the element; a `std::vector` of plane pointers is a list.
* A `for (i = 0; i < n; i++)` loop is `forRange n`, a left fold of the body
  over `0, 1, ..., n - 1`.
-/

namespace Openholo

/-! ## Complex samples -/

/-- Complex sample `oph::Complex<Real>`: the pair (real, imaginary). -/
@[ext]
structure Cpx (R : Type) where
  re : R
  im : R

/-- A plane of complex samples, `oph::Complex<Real>*`, indexed `row * nx + col`. -/
abbrev Wavefield (R : Type) := Nat → Cpx R

/-- External numeric collaborators of the engine: the `<cmath>` functions, the
constants `M_PI` and `REAL_IS_DOUBLE ? DBL_MAX : FLT_MAX`, and `fft2` of the
base class called as `fft2(src, dst, nx, ny, OPH_FORWARD, false)`, which
yields the contents of `dst`. -/
structure Env (R : Type) where
  sqrt : R → R
  cos : R → R
  sin : R → R
  M_PI : R
  REAL_MAX : R
  fft2 : Wavefield R → Nat → Nat → Wavefield R

section Definitions

variable {R : Type} [LinearOrderedField R] [FloorRing R]

/-- The sample `0`, i.e. `Complex(0)`: both parts zero. -/
def Cpx.zero : Cpx R := ⟨0, 0⟩

/-- Modelled from the spec: the squared magnitude of a complex sample,
`re² + im²` (`mag2` of the missing header `complex.h`). -/
def Cpx.mag2 (z : Cpx R) : R := z.re * z.re + z.im * z.im

/-- Modelled from the spec: multiplication of complex samples (`operator*` and
`operator*=` of the missing header `complex.h`). -/
def Cpx.mul (a b : Cpx R) : Cpx R :=
  ⟨a.re * b.re - a.im * b.im, a.re * b.im + a.im * b.re⟩

/-- Modelled from the spec: division of complex samples (`operator/` of the
missing header `complex.h`). -/
def Cpx.div (a b : Cpx R) : Cpx R :=
  ⟨(a.re * b.re + a.im * b.im) / (b.re * b.re + b.im * b.im),
   (a.im * b.re - a.re * b.im) / (b.re * b.re + b.im * b.im)⟩

/-- Modelled from the spec: `Complex(0, θ).exp()`, the exponential of the
pure-imaginary value `i·θ`, is `(cos θ, sin θ)` (`exp` of the missing header
`complex.h`). -/
def Cpx.expI (env : Env R) (θ : R) : Cpx R := ⟨env.cos θ, env.sin θ⟩

/-! ## Loops and machine integers -/

/-- The loop `for (i = 0; i < n; i++) body`, acting on the state `σ`. -/
def forRange {σ : Type} (n : Nat) (body : Nat → σ → σ) (s : σ) : σ :=
  (List.range n).foldl (fun acc i => body i acc) s

/-- Number of values of an `oph::uint` (32-bit `unsigned int`). -/
def uintModulus : Nat := 4294967296

/-- Subtraction of `oph::uint` values: the result is reduced modulo `2 ^ 32`. -/
def uintSub (a b : Nat) : Nat := (a + uintModulus - b % uintModulus) % uintModulus

/-- The conversion of an integer to `bool`: every value except `0` is `true`. -/
def boolOfInt (n : Int) : Bool := n != 0

/-- The cast `(oph::uchar)x` of a `Real`: truncation toward zero; the values the
extractor passes lie in `[0, 255]`. -/
def ucharOfReal (x : R) : Nat := ⌊x⌋₊ % 256

/-- The call `memcpy(dst, src, n * sizeof(Complex<Real>))`: the first `n` samples
of `dst` become those of `src`. -/
def memcpy (dst src : Wavefield R) (n : Nat) : Wavefield R :=
  fun i => if i < n then src i else dst i

/-! ## Configuration and engine state -/

/-- The member `config_` (`OphCascadedPropagationConfig`). -/
structure OphCascadedPropagationConfig (R : Type) where
  num_colors : Nat
  wavelengths : Nat → R
  dx : R
  dy : R
  nx : Nat
  ny : Nat
  field_lens_focal_length : R
  dist_reconstruction_plane_to_pupil : R
  dist_pupil_to_retina : R
  pupil_diameter : R
  nor : R

/-- The enumeration `SourceType`. -/
inductive SourceType where
  | IMG
  | OHC
  deriving DecidableEq, Repr

/-- The members of `ophCascadedPropagation` the engine reads and writes.
`complex_H` is the field buffer of the base class. -/
structure Engine (R : Type) where
  config_ : OphCascadedPropagationConfig R
  sourcetype_ : SourceType
  ready_to_propagate : Bool
  hologram_path : String
  wavefield_SLM : List (Wavefield R)
  wavefield_pupil : List (Wavefield R)
  wavefield_retina : List (Wavefield R)
  complex_H : List (Wavefield R)

/-- Getter `getNumColors()`. -/
def getNumColors (s : Engine R) : Nat := s.config_.num_colors

/-- Getter `getResX()`. -/
def getResX (s : Engine R) : Nat := s.config_.nx

/-- Getter `getResY()`. -/
def getResY (s : Engine R) : Nat := s.config_.ny

/-- Getter `getWavelengths()`. -/
def getWavelengths (s : Engine R) : Nat → R := s.config_.wavelengths

/-- Getter `getPixelPitchX()`. -/
def getPixelPitchX (s : Engine R) : R := s.config_.dx

/-- Getter `getPixelPitchY()`. -/
def getPixelPitchY (s : Engine R) : R := s.config_.dy

/-- Getter `getFieldLensFocalLength()`. -/
def getFieldLensFocalLength (s : Engine R) : R := s.config_.field_lens_focal_length

/-- Getter `getDistObjectToPupil()`. -/
def getDistObjectToPupil (s : Engine R) : R := s.config_.dist_reconstruction_plane_to_pupil

/-- Getter `getDistPupilToRetina()`. -/
def getDistPupilToRetina (s : Engine R) : R := s.config_.dist_pupil_to_retina

/-- Getter `getPupilDiameter()`. -/
def getPupilDiameter (s : Engine R) : R := s.config_.pupil_diameter

/-- Getter `getNor()`. -/
def getNor (s : Engine R) : R := s.config_.nor

/-- Getter `isReadyToPropagate()`. -/
def isReadyToPropagate (s : Engine R) : Bool := s.ready_to_propagate

/-- The accessor `getSlmWavefield(id)`: `none` is the null pointer returned when
`wavefield_SLM.size() <= id`. -/
def getSlmWavefield (s : Engine R) (id : Nat) : Option (Wavefield R) :=
  if s.wavefield_SLM.length ≤ id then none else s.wavefield_SLM[id]?

/-- The accessor `getPupilWavefield(id)`. -/
def getPupilWavefield (s : Engine R) (id : Nat) : Option (Wavefield R) :=
  if s.wavefield_pupil.length ≤ id then none else s.wavefield_pupil[id]?

/-- The accessor `getRetinaWavefield(id)`. -/
def getRetinaWavefield (s : Engine R) (id : Nat) : Option (Wavefield R) :=
  if s.wavefield_retina.length ≤ id then none else s.wavefield_retina[id]?

/-- The accessor `getRetinaWavefieldAll()`. -/
def getRetinaWavefieldAll (s : Engine R) : List (Wavefield R) := s.wavefield_retina

/-! ## Intensity extraction (`getIntensityfields`) -/

/-- The image buffer `new oph::uchar[size]` returned by `getIntensityfields`. -/
structure Image where
  size : Nat
  pix : Nat → Nat

/-- State of the min/max scan: the buffer `intensityFieldUnnormalized` and the
running `maxIntensity` and `minIntensity`. -/
structure MinMax (R : Type) where
  intensityFieldUnnormalized : Nat → R
  maxIntensity : R
  minIntensity : R

/-- The body of the "find minmax" pixel loops of `getIntensityfields`. -/
def minMaxStep (nx : Nat) (waveField : Wavefield R) (row col : Nat) (st : MinMax R) : MinMax R :=
  let unnormalized :=
    Function.update st.intensityFieldUnnormalized (row * nx + col)
      (waveField (row * nx + col)).mag2
  { intensityFieldUnnormalized := unnormalized
    maxIntensity := max st.maxIntensity (unnormalized (row * nx + col))
    minIntensity := min st.minIntensity (unnormalized (row * nx + col)) }

/-- The "find minmax" loops of `getIntensityfields` for one channel.  The
buffer `new Real[nx * ny]` is written before it is read; it starts as zeros. -/
def findMinMax (env : Env R) (nx ny : Nat) (waveField : Wavefield R) : MinMax R :=
  forRange ny (fun row => forRange nx (fun col st => minMaxStep nx waveField row col st))
    { intensityFieldUnnormalized := fun _ => 0
      maxIntensity := 0
      minIntensity := env.REAL_MAX }

/-- The body of the loop over `color` in `getIntensityfields`: scan for the
minimum and maximum, scale the maximum by `getNor()`, then write the channel.
The arithmetic is exact here; `intensityChannelRounded` has the rounding. -/
def intensityChannel (env : Env R) (s : Engine R) (waveFields : List (Wavefield R))
    (color : Nat) (intensityField : Nat → Nat) : Nat → Nat :=
  let numColors := getNumColors s
  let nx := getResX s
  let ny := getResY s
  let mm := findMinMax env nx ny (waveFields.getD color (fun _ => Cpx.zero))
  let minIntensity := mm.minIntensity
  let maxIntensity := mm.maxIntensity * getNor s
  if maxIntensity ≤ minIntensity then
    forRange ny (fun row =>
      forRange nx (fun col out =>
        Function.update out ((row * nx + col) * numColors + (numColors - 1 - color)) 0))
      intensityField
  else
    forRange ny (fun row =>
      forRange nx (fun col out =>
        let normalizedVal :=
          (mm.intensityFieldUnnormalized (row * nx + col) - minIntensity)
            / (maxIntensity - minIntensity)
        let normalizedVal := min 1 normalizedVal
        Function.update out
          (((ny - 1 - row) * nx + (nx - 1 - col)) * numColors + (numColors - 1 - color))
          (ucharOfReal (normalizedVal * 255))))
      intensityField

/-- The function `getIntensityfields(waveFields)`: `none` is the `nullptr` of
the failure path.  A channel index beyond `waveFields` reads the zero field.
The buffer `new oph::uchar[nx * ny * numColors]` starts as zeros; the loops
write every byte of it. -/
def getIntensityfields (env : Env R) (s : Engine R) (waveFields : List (Wavefield R)) :
    Option Image :=
  let numColors := getNumColors s
  if numColors ≠ 1 ∧ numColors ≠ 3 then
    none
  else
    let nx := getResX s
    let ny := getResY s
    some
      { size := nx * ny * numColors
        pix := forRange numColors (fun color intensityField =>
          intensityChannel env s waveFields color intensityField) (fun _ => 0) }

/-! ## The two propagation stages -/

/-- The local `k = 2 * M_PI / getWavelengths()[color]` of both stages. -/
def waveNumber (env : Env R) (s : Engine R) (color : Nat) : R :=
  2 * env.M_PI / getWavelengths s color

/-- The local `vw = getWavelengths()[color] * getFieldLensFocalLength() / getPixelPitchX()`
of both stages. -/
def pitchVw (s : Engine R) (color : Nat) : R :=
  getWavelengths s color * getFieldLensFocalLength s / getPixelPitchX s

/-- The local `dx1 = vw / (Real)nx` of both stages. -/
def pitchDx1 (s : Engine R) (color : Nat) : R := pitchVw s color / (getResX s : R)

/-- The local `dy1 = vw / (Real)ny` of both stages. -/
def pitchDy1 (s : Engine R) (color : Nat) : R := pitchVw s color / (getResY s : R)

/-- The local `X1 = ((Real)col - ((Real)nx - 1) * 0.5f) * dx1` of both stages. -/
def coordX1 (s : Engine R) (color col : Nat) : R :=
  ((col : R) - ((getResX s : R) - 1) * (1 / 2)) * pitchDx1 s color

/-- The local `Y1 = ((Real)row - ((Real)ny - 1) * 0.5f) * dy1` of both stages. -/
def coordY1 (s : Engine R) (color row : Nat) : R :=
  ((row : R) - ((getResY s : R) - 1) * (1 / 2)) * pitchDy1 s color

/-- The aperture test of `propagateSlmToPupil`,
`(sqrt(X1 * X1 + Y1 * Y1) >= getPupilDiameter() / 2) || (row >= ny / 2 - 1)`,
with `ny / 2 - 1` computed on `oph::uint`. -/
def apertureBlocks (env : Env R) (s : Engine R) (row : Nat) (X1 Y1 : R) : Prop :=
  env.sqrt (X1 * X1 + Y1 * Y1) ≥ getPupilDiameter s / 2 ∨ row ≥ uintSub (getResY s / 2) 1

instance apertureBlocksDecidable (env : Env R) (s : Engine R) (row : Nat) (X1 Y1 : R) :
    Decidable (apertureBlocks env s row X1 Y1) := by
  unfold apertureBlocks
  exact inferInstance

/-- The local `f_eye` of `propagateSlmToPupil`. -/
def focalEye (s : Engine R) : R :=
  (getFieldLensFocalLength s - getDistObjectToPupil s) * getDistPupilToRetina s
    / (getFieldLensFocalLength s - getDistObjectToPupil s + getDistPupilToRetina s)

/-- The body of the pixel loops of `propagateSlmToPupil` at `(row, col)`: first
propagation, aperture, multiplication by `t3`. -/
def slmToPupilPixel (env : Env R) (s : Engine R) (color row col : Nat) (buf : Wavefield R) :
    Wavefield R :=
  let nx := getResX s
  let k := waveNumber env s color
  let X1 := coordX1 s color col
  let Y1 := coordY1 s color row
  let t1 := Cpx.expI env (k / 2 / getFieldLensFocalLength s * (X1 * X1 + Y1 * Y1))
  let t2 : Cpx R := ⟨0, getWavelengths s color * getFieldLensFocalLength s⟩
  let buf := Function.update buf (row * nx + col) ((t1.div t2).mul (buf (row * nx + col)))
  let buf :=
    if apertureBlocks env s row X1 Y1 then
      Function.update buf (row * nx + col) Cpx.zero
    else buf
  let f_eye := focalEye s
  let t3 := Cpx.expI env ((-k) / 2 / f_eye * (X1 * X1 + Y1 * Y1))
  Function.update buf (row * nx + col) ((buf (row * nx + col)).mul t3)

/-- The statements of the loop over `color` in `propagateSlmToPupil` for one
channel: `fft2` of the SLM plane into `buf`, the pixel loops, and the `memcpy`
of `buf` over the Pupil plane.  The result is the new Pupil plane. -/
def pupilPlane (env : Env R) (s : Engine R) (color : Nat) (slm pupil : Wavefield R) :
    Wavefield R :=
  let nx := getResX s
  let ny := getResY s
  let buf := env.fft2 slm nx ny
  let buf := forRange ny (fun row =>
    forRange nx (fun col b => slmToPupilPixel env s color row col b)) buf
  memcpy pupil buf (nx * ny)

/-- The body of the loop over `color` in `propagateSlmToPupil`.  A null plane
pointer (a channel beyond the store) has no defined behaviour in `fft2` and
`memcpy`; the state is left as it is there. -/
def slmToPupilChannel (env : Env R) (color : Nat) (s : Engine R) : Engine R :=
  match getSlmWavefield s color, getPupilWavefield s color with
  | some slm, some pupil =>
    { s with wavefield_pupil := s.wavefield_pupil.set color (pupilPlane env s color slm pupil) }
  | _, _ => s

/-- The function `propagateSlmToPupil()`. -/
def propagateSlmToPupil (env : Env R) (s : Engine R) : Bool × Engine R :=
  (true, forRange (getNumColors s) (fun color st => slmToPupilChannel env color st) s)

/-- The body of the pixel loops of `propagatePupilToRetina` at `(row, col)`. -/
def pupilToRetinaPixel (env : Env R) (s : Engine R) (color row col : Nat) (buf : Wavefield R) :
    Wavefield R :=
  let nx := getResX s
  let k := waveNumber env s color
  let X1 := coordX1 s color col
  let Y1 := coordY1 s color row
  let t1 := Cpx.expI env (k / 2 / getDistPupilToRetina s * (X1 * X1 + Y1 * Y1))
  Function.update buf (row * nx + col) ((buf (row * nx + col)).mul t1)

/-- The statements of the loop over `color` in `propagatePupilToRetina` for one
channel: `memcpy` of the Pupil plane into the scratch buffer
`new oph::Complex<Real>[nx * ny]`, the pixel loops, and `fft2` into the Retina
plane.  The result is the new Retina plane. -/
def retinaPlane (env : Env R) (s : Engine R) (color : Nat) (pupil : Wavefield R) :
    Wavefield R :=
  let nx := getResX s
  let ny := getResY s
  let buf := memcpy (fun _ => Cpx.zero) pupil (nx * ny)
  let buf := forRange ny (fun row =>
    forRange nx (fun col b => pupilToRetinaPixel env s color row col b)) buf
  env.fft2 buf nx ny

/-- The body of the loop over `color` in `propagatePupilToRetina`; a null plane
pointer leaves the state as it is. -/
def pupilToRetinaChannel (env : Env R) (color : Nat) (s : Engine R) : Engine R :=
  match getPupilWavefield s color, getRetinaWavefield s color with
  | some pupil, some _ =>
    { s with wavefield_retina := s.wavefield_retina.set color (retinaPlane env s color pupil) }
  | _, _ => s

/-- The function `propagatePupilToRetina()`. -/
def propagatePupilToRetina (env : Env R) (s : Engine R) : Bool × Engine R :=
  (true, forRange (getNumColors s) (fun color st => pupilToRetinaChannel env color st) s)

/-- The function `propagate()`. -/
def propagate (env : Env R) (s : Engine R) : Bool × Engine R :=
  if !isReadyToPropagate s then
    (false, s)
  else
    let a := propagateSlmToPupil env s
    if !a.1 then
      (false, a.2)
    else
      let b := propagatePupilToRetina env a.2
      if !b.1 then (false, b.2) else (true, b.2)

/-! ## Store allocation, source loading, configuration and construction -/

/-- The call `v.resize(n)` of a `std::vector`: the first `n` elements are kept
and the vector is padded with `d` up to size `n`. -/
def vectorResize {α : Type} (v : List α) (n : Nat) (d : α) : List α :=
  v.take n ++ List.replicate (n - v.length) d

/-- The function `allocateMem()`; a fresh `new oph::Complex<Real>[nx * ny]` holds
zero samples. -/
def allocateMem (s : Engine R) : Bool × Engine R :=
  let fresh : Wavefield R := fun _ => Cpx.zero
  let s := { s with wavefield_SLM := vectorResize s.wavefield_SLM (getNumColors s) fresh }
  let s := { s with wavefield_pupil := vectorResize s.wavefield_pupil (getNumColors s) fresh }
  let s := { s with wavefield_retina := vectorResize s.wavefield_retina (getNumColors s) fresh }
  let s := { s with complex_H := List.replicate (getNumColors s) fresh }
  (true, forRange (getNumColors s) (fun i st =>
    { st with
      wavefield_SLM := st.wavefield_SLM.set i fresh
      wavefield_pupil := st.wavefield_pupil.set i fresh
      wavefield_retina := st.wavefield_retina.set i fresh
      complex_H := st.complex_H.set i fresh }) s)

/-- The contents of a wavefield container as the base-class loader
`Openholo::loadAsOhc` decodes it: the number of wavelengths reported by
`OHC_decoder->getNumOfWavlen()` and the fields placed in `complex_H`. -/
structure OhcContainer (R : Type) where
  numOfWavlen : Nat
  complex_H : List (Wavefield R)

/-- The elements of a configuration document as `tinyxml2` reports them: `none`
is an element that is missing or whose text does not parse. -/
structure ConfigXml (R : Type) where
  SourceType : Option String
  NumColors : Option Nat
  WavelengthR : Option R
  WavelengthG : Option R
  WavelengthB : Option R
  PixelPitchHor : Option R
  PixelPitchVer : Option R
  ResolutionHor : Option Nat
  ResolutionVer : Option Nat
  FieldLensFocalLength : Option R
  DistReconstructionPlaneToPupil : Option R
  DistPupilToRetina : Option R
  PupilDiameter : Option R
  Nor : Option R
  HologramPath : Option String

/-- External file collaborators: `checkExtension`, the document `tinyxml2` loads
from a path (`none`: `LoadFile` fails), the bitmap loader `loadAsImgUpSideDown`
(`none`: it fails) and the base-class loader `Openholo::loadAsOhc` (`none`: it
fails). -/
structure Files (R : Type) where
  checkExtension : String → String → Bool
  loadXml : String → Option (ConfigXml R)
  loadAsImgUpSideDown : String → Option (Nat → Nat)
  loadAsOhc : String → Option (OhcContainer R)

/-- The assignment `v[channel][idx] = z` into a vector of planes. -/
def writeSample (v : List (Wavefield R)) (channel idx : Nat) (z : Cpx R) : List (Wavefield R) :=
  match v[channel]? with
  | some plane => v.set channel (Function.update plane idx z)
  | none => v

/-- The function `loadInputImg(hologram_path_str)`.  The assignments of its
`try` block do not throw, so the `catch` branch is not reached. -/
def loadInputImg (files : Files R) (s : Engine R) (hologram_path_str : String) :
    Bool × Engine R :=
  if !files.checkExtension hologram_path_str ".bmp" then
    (false, s)
  else
    let nx := getResX s
    let ny := getResY s
    match files.loadAsImgUpSideDown hologram_path_str with
    | none => (false, s)
    | some data =>
      let numColors := getNumColors s
      (true, forRange ny (fun row =>
        forRange nx (fun col =>
          forRange numColors (fun color st =>
            { st with
              wavefield_SLM :=
                writeSample st.wavefield_SLM (numColors - 1 - color) ((ny - 1 - row) * nx + col)
                  ⟨(data ((row * nx + col) * numColors + color) : R), 0⟩ }))) s)

/-- The function `loadAsOhc(fname)`.  Its return type is `bool`, its return
statements are `return -1;` and `return 1;`. -/
def loadAsOhc (files : Files R) (s : Engine R) (fname : String) : Bool × Engine R :=
  match files.loadAsOhc fname with
  | none => (boolOfInt (-1), s)
  | some ohc =>
    let s := { s with complex_H := ohc.complex_H }
    let nx := getResX s
    let ny := getResY s
    let s := { s with config_ := { s.config_ with num_colors := ohc.numOfWavlen } }
    (boolOfInt 1, forRange (getNumColors s) (fun i st =>
      match st.wavefield_SLM[i]?, st.complex_H[i]? with
      | some dst, some src =>
        { st with wavefield_SLM := st.wavefield_SLM.set i (memcpy dst src (nx * ny)) }
      | _, _ => st) s)

/-- One element query of `readConfig`: on a missing or unparsable element the
function returns `false` with the state reached so far. -/
def queryElement {α : Type} (elem : Option α) (store : α → Engine R → Engine R)
    (s : Engine R) : Except (Engine R) (Engine R) :=
  match elem with
  | none => Except.error s
  | some v => Except.ok (store v s)

/-- The function `readConfig(fname)`, on the members the engine uses (the copy
of the metadata into the container context of the base class is left out). -/
def readConfig (files : Files R) (s : Engine R) (fname : String) : Bool × Engine R :=
  if !files.checkExtension fname ".xml" then
    (false, s)
  else
    match files.loadXml fname with
    | none => (false, s)
    | some xml =>
      let run : Except (Engine R) (Engine R) := do
        let s ← queryElement xml.SourceType (fun sourceTypeStr s =>
          if sourceTypeStr = "IMG" then { s with sourcetype_ := SourceType.IMG }
          else if sourceTypeStr = "OHC" then { s with sourcetype_ := SourceType.OHC }
          else s) s
        let s ← queryElement xml.NumColors (fun v s =>
          { s with config_ := { s.config_ with num_colors := v } }) s
        let s ← if getNumColors s = 0 ∨ getNumColors s > 3 then Except.error s else Except.ok s
        let s ← if s.config_.num_colors ≥ 1 then
            queryElement xml.WavelengthR (fun v s =>
              { s with config_ := { s.config_ with
                  wavelengths := Function.update s.config_.wavelengths 0 v } }) s
          else Except.ok s
        let s ← if s.config_.num_colors ≥ 2 then
            queryElement xml.WavelengthG (fun v s =>
              { s with config_ := { s.config_ with
                  wavelengths := Function.update s.config_.wavelengths 1 v } }) s
          else Except.ok s
        let s ← if s.config_.num_colors = 3 then
            queryElement xml.WavelengthB (fun v s =>
              { s with config_ := { s.config_ with
                  wavelengths := Function.update s.config_.wavelengths 2 v } }) s
          else Except.ok s
        let s ← queryElement xml.PixelPitchHor (fun v s =>
          { s with config_ := { s.config_ with dx := v } }) s
        let s ← queryElement xml.PixelPitchVer (fun v s =>
          { s with config_ := { s.config_ with dy := v } }) s
        let s ← if getPixelPitchX s ≠ getPixelPitchY s then Except.error s else Except.ok s
        let s ← queryElement xml.ResolutionHor (fun v s =>
          { s with config_ := { s.config_ with nx := v } }) s
        let s ← queryElement xml.ResolutionVer (fun v s =>
          { s with config_ := { s.config_ with ny := v } }) s
        let s ← queryElement xml.FieldLensFocalLength (fun v s =>
          { s with config_ := { s.config_ with field_lens_focal_length := v } }) s
        let s ← queryElement xml.DistReconstructionPlaneToPupil (fun v s =>
          { s with config_ := { s.config_ with dist_reconstruction_plane_to_pupil := v } }) s
        let s ← queryElement xml.DistPupilToRetina (fun v s =>
          { s with config_ := { s.config_ with dist_pupil_to_retina := v } }) s
        let s ← queryElement xml.PupilDiameter (fun v s =>
          { s with config_ := { s.config_ with pupil_diameter := v } }) s
        let s ← queryElement xml.Nor (fun v s =>
          { s with config_ := { s.config_ with nor := v } }) s
        queryElement xml.HologramPath (fun v s => { s with hologram_path := v }) s
      match run with
      | Except.error s => (false, s)
      | Except.ok s => (true, s)

/-- The constructor `ophCascadedPropagation(configfilepath)`.  The members it
does not initialise (`config_`, `sourcetype_`) start from `members`; the three
stores start empty. -/
def construct (files : Files R) (members : Engine R) (configfilepath : String) : Engine R :=
  let s : Engine R :=
    { members with
      ready_to_propagate := false
      hologram_path := ""
      wavefield_SLM := []
      wavefield_pupil := []
      wavefield_retina := []
      complex_H := [] }
  let r := readConfig files s configfilepath
  if r.1 then
    let a := allocateMem r.2
    if a.1 then
      let s := a.2
      let hologram_path_str := s.hologram_path
      if s.sourcetype_ = SourceType.IMG then
        let l := loadInputImg files s hologram_path_str
        if l.1 then
          { l.2 with ready_to_propagate := true }
        else
          { l.2 with ready_to_propagate := false }
      else if s.sourcetype_ = SourceType.OHC then
        let l := loadAsOhc files s hologram_path_str
        { l.2 with ready_to_propagate := l.1 }
      else
        { s with ready_to_propagate := false }
    else a.2
  else r.2

/-! ## The spectral transform and the specification's vocabulary -/

/-- Modelled from the spec: addition of complex samples (`operator+` of the
missing header `complex.h`). -/
def Cpx.add (a b : Cpx R) : Cpx R := ⟨a.re + b.re, a.im + b.im⟩

/-- Modelled from the spec: the Spectral Transform `fft2` of the missing base
class, the unnormalized forward 2D discrete Fourier transform with same-size
output: the sample at `v * nx + u` is the sum over the grid of
`src[row * nx + col] * exp(-2πi (u col / nx + v row / ny))`. -/
def dft2 (cos sin : R → R) (pi : R) (src : Wavefield R) (nx ny : Nat) : Wavefield R :=
  fun idx =>
    forRange ny (fun row =>
      forRange nx (fun col acc =>
        acc.add ((src (row * nx + col)).mul
          ⟨cos (-(2 * pi * (((idx % nx : Nat) : R) * (col : R) / (nx : R)
              + ((idx / nx : Nat) : R) * (row : R) / (ny : R)))),
           sin (-(2 * pi * (((idx % nx : Nat) : R) * (col : R) / (nx : R)
              + ((idx / nx : Nat) : R) * (row : R) / (ny : R))))⟩)))
      Cpx.zero

/-- The sample the pixel body of `propagateSlmToPupil` leaves at `(row, col)`
when it finds `b` there and computes the coordinates `X1`, `Y1`: the factor
`t1 / t2`, the aperture, the factor `t3`. -/
def slmToPupilSample (env : Env R) (s : Engine R) (color row : Nat) (X1 Y1 : R) (b : Cpx R) :
    Cpx R :=
  (if apertureBlocks env s row X1 Y1 then Cpx.zero
    else ((Cpx.expI env
        (waveNumber env s color / 2 / getFieldLensFocalLength s * (X1 * X1 + Y1 * Y1))).div
      ⟨0, getWavelengths s color * getFieldLensFocalLength s⟩).mul b).mul
    (Cpx.expI env ((-waveNumber env s color) / 2 / focalEye s * (X1 * X1 + Y1 * Y1)))

/-- The sample the pixel body of `propagatePupilToRetina` leaves at a pixel
when it finds `b` there and computes the coordinates `X1`, `Y1`. -/
def pupilToRetinaSample (env : Env R) (s : Engine R) (color : Nat) (X1 Y1 : R) (b : Cpx R) :
    Cpx R :=
  b.mul (Cpx.expI env
    (waveNumber env s color / 2 / getDistPupilToRetina s * (X1 * X1 + Y1 * Y1)))

/-- One pass of a loop over the channels of a store: when the source plane
`src` and plane `c` of the store are both there, plane `c` becomes `F src
plane`; otherwise the store is kept. -/
def storeStep {α β : Type} (src : Option β) (F : β → α → α) (c : Nat) (l : List α) : List α :=
  match src, l[c]? with
  | some a, some x => l.set c (F a x)
  | _, _ => l

/-- The spec's `clamp(x, 0, 1)`. -/
def clamp01 (x : R) : R := max 0 (min 1 x)

/-- The spec's output byte `round(v · 255)`. -/
def roundedByte (v : R) : Int := round (v * 255)

/-- The store invariant of the spec: the SLM, Pupil and Retina stores each
hold exactly `getNumColors()` channel fields. -/
def StoreInvariant (s : Engine R) : Prop :=
  s.wavefield_SLM.length = getNumColors s
    ∧ s.wavefield_pupil.length = getNumColors s
    ∧ s.wavefield_retina.length = getNumColors s

/-- The square-root contract of `sqrt` that the end-to-end scenario relies on. -/
def SqrtExact (env : Env R) : Prop :=
  ∀ x : R, 0 ≤ x → 0 ≤ env.sqrt x ∧ env.sqrt x * env.sqrt x = x

/-- The transform maps the zero field to the zero field (it is linear). -/
def TransformZero (env : Env R) : Prop :=
  ∀ nx ny : Nat, env.fft2 (fun _ => Cpx.zero) nx ny = fun _ => Cpx.zero

/-- The configuration of the end-to-end scenario of the spec. -/
def scenarioConfig : OphCascadedPropagationConfig R :=
  { num_colors := 1
    wavelengths := fun _ => 532 / 1000000000
    dx := 8 / 1000000
    dy := 8 / 1000000
    nx := 4
    ny := 4
    field_lens_focal_length := 2 / 10
    dist_reconstruction_plane_to_pupil := 5 / 100
    dist_pupil_to_retina := 24 / 1000
    pupil_diameter := 4 / 1000
    nor := 1 }

/-- The ready engine of the end-to-end scenario: one channel, the SLM plane of
all ones, zeroed Pupil and Retina planes. -/
def scenarioEngine : Engine R :=
  { config_ := scenarioConfig
    sourcetype_ := SourceType.IMG
    ready_to_propagate := true
    hologram_path := ""
    wavefield_SLM := [fun _ => ⟨1, 0⟩]
    wavefield_pupil := [fun _ => Cpx.zero]
    wavefield_retina := [fun _ => Cpx.zero]
    complex_H := [fun _ => Cpx.zero] }

/-- The environment built from given `sqrt`, `cos`, `sin` and `M_PI`: `REAL_MAX`
is the value of `DBL_MAX` and `fft2` is the discrete Fourier transform. -/
def mathEnv (sqrt cos sin : R → R) (pi : R) : Env R :=
  { sqrt := sqrt
    cos := cos
    sin := sin
    M_PI := pi
    REAL_MAX := 2 ^ 1024 - 2 ^ 971
    fft2 := dft2 cos sin pi }

/-! ## Intensity extraction with the rounding of double arithmetic

The same function once more, with the rounding of every arithmetic result made
explicit: `fl` is the rounding of a real result to `Real` (a `double`), and
`fl = id` gives back `getIntensityfields`. -/

/-- Modelled from the spec: the squared magnitude `re² + im²` as `mag2`
computes it in `Real` arithmetic; the two products and the sum are each
rounded by `fl`. -/
def Cpx.mag2Rounded (fl : R → R) (z : Cpx R) : R := fl (fl (z.re * z.re) + fl (z.im * z.im))

/-- The body of the "find minmax" pixel loops of `getIntensityfields`, with
rounding. -/
def minMaxStepRounded (fl : R → R) (nx : Nat) (waveField : Wavefield R) (row col : Nat)
    (st : MinMax R) : MinMax R :=
  let unnormalized :=
    Function.update st.intensityFieldUnnormalized (row * nx + col)
      (Cpx.mag2Rounded fl (waveField (row * nx + col)))
  { intensityFieldUnnormalized := unnormalized
    maxIntensity := max st.maxIntensity (unnormalized (row * nx + col))
    minIntensity := min st.minIntensity (unnormalized (row * nx + col)) }

/-- The "find minmax" loops of `getIntensityfields` for one channel, with
rounding. -/
def findMinMaxRounded (fl : R → R) (env : Env R) (nx ny : Nat) (waveField : Wavefield R) :
    MinMax R :=
  forRange ny (fun row =>
    forRange nx (fun col st => minMaxStepRounded fl nx waveField row col st))
    { intensityFieldUnnormalized := fun _ => 0
      maxIntensity := 0
      minIntensity := env.REAL_MAX }

/-- The body of the loop over `color` in `getIntensityfields`, with rounding:
`maxIntensity *= getNor()`, the difference `x - minIntensity`, the difference
`maxIntensity - minIntensity`, their quotient and the product
`normalizedVal * 255` are each rounded by `fl` before the cast to `oph::uchar`
truncates. -/
def intensityChannelRounded (fl : R → R) (env : Env R) (s : Engine R)
    (waveFields : List (Wavefield R)) (color : Nat) (intensityField : Nat → Nat) : Nat → Nat :=
  let numColors := getNumColors s
  let nx := getResX s
  let ny := getResY s
  let mm := findMinMaxRounded fl env nx ny (waveFields.getD color (fun _ => Cpx.zero))
  let minIntensity := mm.minIntensity
  let maxIntensity := fl (mm.maxIntensity * getNor s)
  if maxIntensity ≤ minIntensity then
    forRange ny (fun row =>
      forRange nx (fun col out =>
        Function.update out ((row * nx + col) * numColors + (numColors - 1 - color)) 0))
      intensityField
  else
    forRange ny (fun row =>
      forRange nx (fun col out =>
        let normalizedVal :=
          fl (fl (mm.intensityFieldUnnormalized (row * nx + col) - minIntensity)
            / fl (maxIntensity - minIntensity))
        let normalizedVal := min 1 normalizedVal
        Function.update out
          (((ny - 1 - row) * nx + (nx - 1 - col)) * numColors + (numColors - 1 - color))
          (ucharOfReal (fl (normalizedVal * 255)))))
      intensityField

/-- The function `getIntensityfields(waveFields)` with rounding. -/
def getIntensityfieldsRounded (fl : R → R) (env : Env R) (s : Engine R)
    (waveFields : List (Wavefield R)) : Option Image :=
  let numColors := getNumColors s
  if numColors ≠ 1 ∧ numColors ≠ 3 then
    none
  else
    let nx := getResX s
    let ny := getResY s
    some
      { size := nx * ny * numColors
        pix := forRange numColors (fun color intensityField =>
          intensityChannelRounded fl env s waveFields color intensityField) (fun _ => 0) }

end Definitions

/-! ## Concrete data used by the examples -/

/-- A rational stand-in for `sqrt`: exact on squares of rationals, in
particular at `0`. -/
def ratSqrt (x : ℚ) : ℚ := (Nat.sqrt (x.num.toNat * x.den) : ℚ) / (x.den : ℚ)

/-- A rational stand-in for `cos`: the Taylor polynomial of degree 4, exact at `0`. -/
def ratCos (x : ℚ) : ℚ := 1 - x ^ 2 / 2 + x ^ 4 / 24

/-- A rational stand-in for `sin`: the Taylor polynomial of degree 3, exact at `0`. -/
def ratSin (x : ℚ) : ℚ := x - x ^ 3 / 6

/-- The environment over the rationals: the stand-ins above and `355 / 113` for
`M_PI`. -/
def ratEnv : Env ℚ := mathEnv ratSqrt ratCos ratSin (355 / 113)

/-- A configuration with unit wavelength, focal length and pitch. -/
def unitConfig (numColors nx ny : Nat) : OphCascadedPropagationConfig ℚ :=
  { num_colors := numColors
    wavelengths := fun _ => 1
    dx := 1
    dy := 1
    nx := nx
    ny := ny
    field_lens_focal_length := 1
    dist_reconstruction_plane_to_pupil := 0
    dist_pupil_to_retina := 1
    pupil_diameter := 4
    nor := 1 }

/-- A ready engine over `unitConfig` with the given SLM planes and zeroed
Pupil and Retina planes. -/
def unitEngine (numColors nx ny : Nat) (slm : List (Wavefield ℚ)) : Engine ℚ :=
  { config_ := unitConfig numColors nx ny
    sourcetype_ := SourceType.IMG
    ready_to_propagate := true
    hologram_path := ""
    wavefield_SLM := slm
    wavefield_pupil := List.replicate numColors (fun _ => Cpx.zero)
    wavefield_retina := List.replicate numColors (fun _ => Cpx.zero)
    complex_H := List.replicate numColors (fun _ => Cpx.zero) }

/-- A configuration document that names a container source (`OHC`) with one
channel on a 2 x 2 grid. -/
def containerXml : ConfigXml ℚ :=
  { SourceType := some "OHC"
    NumColors := some 1
    WavelengthR := some 1
    WavelengthG := none
    WavelengthB := none
    PixelPitchHor := some 1
    PixelPitchVer := some 1
    ResolutionHor := some 2
    ResolutionVer := some 2
    FieldLensFocalLength := some 1
    DistReconstructionPlaneToPupil := some 0
    DistPupilToRetina := some 1
    PupilDiameter := some 4
    Nor := some 1
    HologramPath := some "hologram.ohc" }

/-- File collaborators for which the configuration document loads and the
container at the hologram path cannot be loaded. -/
def missingContainer : Files ℚ :=
  { checkExtension := fun _ _ => true
    loadXml := fun _ => some containerXml
    loadAsImgUpSideDown := fun _ => none
    loadAsOhc := fun _ => none }

/-- File collaborators for which the configuration document loads and the
container at the hologram path holds three wavelengths. -/
def threeWavelengths : Files ℚ :=
  { checkExtension := fun _ _ => true
    loadXml := fun _ => some containerXml
    loadAsImgUpSideDown := fun _ => none
    loadAsOhc := fun _ =>
      some { numOfWavlen := 3
             complex_H := [fun _ => ⟨1, 0⟩, fun _ => ⟨1, 0⟩, fun _ => ⟨1, 0⟩] } }

/-- Member values before construction: no planes, an all-zero configuration. -/
def blankMembers : Engine ℚ :=
  { config_ :=
      { num_colors := 0
        wavelengths := fun _ => 0
        dx := 0
        dy := 0
        nx := 0
        ny := 0
        field_lens_focal_length := 0
        dist_reconstruction_plane_to_pupil := 0
        dist_pupil_to_retina := 0
        pupil_diameter := 0
        nor := 0 }
    sourcetype_ := SourceType.IMG
    ready_to_propagate := false
    hologram_path := ""
    wavefield_SLM := []
    wavefield_pupil := []
    wavefield_retina := []
    complex_H := [] }

/-- A rounding over the rationals, to the nearest multiple of `1 / 1024`: a
stand-in for the rounding to `double`; monotone, and exact on the integers. -/
def gridRound (x : ℚ) : ℚ := ((⌊x * 1024 + 1 / 2⌋ : Int) : ℚ) / 1024

/-- The field whose sample at index `i` is `(i, 0)`: squared magnitudes `0, 1, 4, ...`. -/
def rampField : Wavefield ℚ := fun i => ⟨(i : ℚ), 0⟩

/-- The field of all ones (real part 1, imaginary part 0). -/
def onesField : Wavefield ℚ := fun _ => ⟨1, 0⟩


/-! ## Loop lemmas -/

section LoopLemmas

theorem forRange_succ {σ : Type} (n : Nat) (body : Nat → σ → σ) (s : σ) :
    forRange (n + 1) body s = body n (forRange n body s) := by
  simp [forRange, List.range_succ, List.foldl_append]

theorem forRange_zero {σ : Type} (body : Nat → σ → σ) (s : σ) :
    forRange 0 body s = s := by
  simp [forRange]

/-- An invariant that every iteration preserves holds after the loop. -/
theorem forRange_invariant {σ : Type} (P : σ → Prop) (n : Nat) (body : Nat → σ → σ) (s : σ)
    (h0 : P s) (hstep : ∀ i, i < n → ∀ t, P t → P (body i t)) :
    P (forRange n body s) := by
  induction n with
  | zero => simpa [forRange_zero] using h0
  | succ m ih =>
    rw [forRange_succ]
    exact hstep m (Nat.lt_succ_self m) _
      (ih (fun i hi t ht => hstep i (Nat.lt_succ_of_lt hi) t ht))

theorem foldl_rows_cols {σ : Type} (cols : List Nat) (body : Nat → Nat → σ → σ) :
    ∀ (rows : List Nat) (s : σ),
      rows.foldl (fun acc row => cols.foldl (fun a col => body row col a) acc) s
        = (List.product rows cols).foldl (fun acc p => body p.1 p.2 acc) s := by
  intro rows
  induction rows with
  | nil => intro s; rfl
  | cons r rs ih =>
    intro s
    have hp : (r :: rs).product cols = cols.map (fun b => (r, b)) ++ rs.product cols :=
      List.product_cons r rs cols
    rw [hp, List.foldl_append, List.foldl_map, List.foldl_cons, ih]

/-- The nested pixel loops are one fold over the row-major list of pixels. -/
theorem forRange_nested {σ : Type} (ny nx : Nat) (body : Nat → Nat → σ → σ) (s : σ) :
    forRange ny (fun row => forRange nx (fun col => body row col)) s
      = (List.product (List.range ny) (List.range nx)).foldl
          (fun acc p => body p.1 p.2 acc) s := by
  unfold forRange
  exact foldl_rows_cols (List.range nx) body (List.range ny) s

/-- A fold whose steps act pointwise on a buffer, each key on the indices it
owns, distinct keys owning distinct indices. -/
theorem foldl_local {κ α : Type} (step : κ → (Nat → α) → (Nat → α))
    (owner : κ → Nat → Prop) (g : κ → Nat → α → α) :
    ∀ (ks : List κ), ks.Nodup →
      (∀ k ∈ ks, ∀ b j, owner k j → step k b j = g k j (b j)) →
      (∀ k ∈ ks, ∀ b j, ¬ owner k j → step k b j = b j) →
      (∀ k ∈ ks, ∀ k2 ∈ ks, ∀ j, owner k j → owner k2 j → k = k2) →
      ∀ init : Nat → α,
        (∀ k ∈ ks, ∀ j, owner k j →
            ks.foldl (fun b k => step k b) init j = g k j (init j))
          ∧ (∀ j, (∀ k ∈ ks, ¬ owner k j) →
            ks.foldl (fun b k => step k b) init j = init j) := by
  intro ks
  induction ks with
  | nil =>
    intro _ _ _ _ init
    exact ⟨fun k hk => absurd hk (List.not_mem_nil k), fun j _ => rfl⟩
  | cons a as ih =>
    intro hnd hown hframe hdisj init
    have hnd2 := List.nodup_cons.mp hnd
    have ih2 := ih hnd2.2
      (fun k hk => hown k (List.mem_cons_of_mem a hk))
      (fun k hk => hframe k (List.mem_cons_of_mem a hk))
      (fun k hk k2 hk2 => hdisj k (List.mem_cons_of_mem a hk) k2 (List.mem_cons_of_mem a hk2))
      (step a init)
    refine ⟨?_, ?_⟩
    · intro k hk j hj
      rw [List.foldl_cons]
      rcases List.mem_cons.mp hk with rfl | hk2
      · have hnone : ∀ k2 ∈ as, ¬ owner k2 j := by
          intro k2 hk2 hcontra
          have heq := hdisj k (List.mem_cons_self k as) k2 (List.mem_cons_of_mem k hk2) j hj hcontra
          exact hnd2.1 (heq ▸ hk2)
        rw [ih2.2 j hnone]
        exact hown k (List.mem_cons_self k as) init j hj
      · rw [ih2.1 k hk2 j hj]
        have hna : ¬ owner a j := by
          intro hcontra
          have heq := hdisj a (List.mem_cons_self a as) k hk j hcontra hj
          exact hnd2.1 (heq ▸ hk2)
        rw [hframe a (List.mem_cons_self a as) init j hna]
    · intro j hj
      rw [List.foldl_cons]
      rw [ih2.2 j (fun k hk => hj k (List.mem_cons_of_mem a hk))]
      exact hframe a (List.mem_cons_self a as) init j (hj a (List.mem_cons_self a as))

theorem mem_pixels (ny nx : Nat) (p : Nat × Nat) :
    p ∈ List.product (List.range ny) (List.range nx) ↔ p.1 < ny ∧ p.2 < nx := by
  rcases p with ⟨r, c⟩
  simp [List.mem_product]

theorem nodup_pixels (ny nx : Nat) :
    (List.product (List.range ny) (List.range nx)).Nodup :=
  List.Nodup.product (List.nodup_range ny) (List.nodup_range nx)

/-- The pixel loops with a body that rewrites one sample per pixel, at an index
that is distinct for distinct pixels. -/
theorem pixelLoop_local {α : Type} (ny nx : Nat) (idx : Nat → Nat → Nat)
    (g : Nat → Nat → α → α)
    (hinj : ∀ r c r2 c2, r < ny → c < nx → r2 < ny → c2 < nx →
      idx r c = idx r2 c2 → r = r2 ∧ c = c2)
    (init : Nat → α) :
    (∀ r c, r < ny → c < nx →
        forRange ny (fun row => forRange nx (fun col b =>
          Function.update b (idx row col) (g row col (b (idx row col))))) init (idx r c)
          = g r c (init (idx r c)))
      ∧ (∀ j, (∀ r c, r < ny → c < nx → j ≠ idx r c) →
        forRange ny (fun row => forRange nx (fun col b =>
          Function.update b (idx row col) (g row col (b (idx row col))))) init j = init j) := by
  rw [forRange_nested]
  have key := foldl_local
    (fun (p : Nat × Nat) (b : Nat → α) =>
      Function.update b (idx p.1 p.2) (g p.1 p.2 (b (idx p.1 p.2))))
    (fun p j => j = idx p.1 p.2) (fun p _ x => g p.1 p.2 x)
    (List.product (List.range ny) (List.range nx)) (nodup_pixels ny nx)
    (by intro k _ b j hj; subst hj; simp)
    (by intro k _ b j hj; simp [Function.update_apply, hj])
    (by
      intro k hk k2 hk2 j hj hj2
      have h1 := (mem_pixels ny nx k).mp hk
      have h2 := (mem_pixels ny nx k2).mp hk2
      have := hinj k.1 k.2 k2.1 k2.2 h1.1 h1.2 h2.1 h2.2 (hj ▸ hj2)
      exact Prod.ext this.1 this.2)
    init
  refine ⟨?_, ?_⟩
  · intro r c hr hc
    exact key.1 (r, c) ((mem_pixels ny nx (r, c)).mpr ⟨hr, hc⟩) (idx r c) rfl
  · intro j hj
    exact key.2 j (fun k hk =>
      hj k.1 k.2 ((mem_pixels ny nx k).mp hk).1 ((mem_pixels ny nx k).mp hk).2)

end LoopLemmas

/-! ## Index arithmetic -/

section IndexLemmas

theorem index_inj (n a b a2 b2 : Nat) (hb : b < n) (hb2 : b2 < n)
    (h : a * n + b = a2 * n + b2) : a = a2 ∧ b = b2 := by
  rcases Nat.lt_trichotomy a a2 with h1 | h1 | h1
  · have h2 : (a + 1) * n ≤ a2 * n := Nat.mul_le_mul_right n h1
    have h3 : (a + 1) * n = a * n + n := by ring
    omega
  · subst h1
    exact ⟨rfl, by omega⟩
  · have h2 : (a2 + 1) * n ≤ a * n := Nat.mul_le_mul_right n h1
    have h3 : (a2 + 1) * n = a2 * n + n := by ring
    omega

/-- The row-major pixel index is injective on the grid. -/
theorem plainIndex_inj (nx ny r c r2 c2 : Nat) (_hr : r < ny) (hc : c < nx) (_hr2 : r2 < ny)
    (hc2 : c2 < nx) (h : r * nx + c = r2 * nx + c2) : r = r2 ∧ c = c2 :=
  index_inj nx r c r2 c2 hc hc2 h

/-- The rotated pixel index is injective on the grid. -/
theorem rotIndex_inj (nx ny r c r2 c2 : Nat) (hr : r < ny) (hc : c < nx) (hr2 : r2 < ny)
    (hc2 : c2 < nx)
    (h : (ny - 1 - r) * nx + (nx - 1 - c) = (ny - 1 - r2) * nx + (nx - 1 - c2)) :
    r = r2 ∧ c = c2 := by
  have h1 := index_inj nx (ny - 1 - r) (nx - 1 - c) (ny - 1 - r2) (nx - 1 - c2)
    (by omega) (by omega) h
  omega

/-- The interleaved output index determines pixel index and channel. -/
theorem channelIndex_inj (nc p q p2 q2 : Nat) (hq : q < nc) (hq2 : q2 < nc)
    (h : p * nc + (nc - 1 - q) = p2 * nc + (nc - 1 - q2)) : p = p2 ∧ q = q2 := by
  have h1 := index_inj nc p (nc - 1 - q) p2 (nc - 1 - q2) (by omega) (by omega) h
  omega

/-- The rotated pixel index stays on the grid. -/
theorem rotIndex_lt (nx ny r c : Nat) (hr : r < ny) (hc : c < nx) :
    (ny - 1 - r) * nx + (nx - 1 - c) < nx * ny := by
  have h1 : (ny - 1 - r + 1) * nx ≤ ny * nx := Nat.mul_le_mul_right nx (by omega)
  have h2 : (ny - 1 - r + 1) * nx = (ny - 1 - r) * nx + nx := by ring
  have h3 : ny * nx = nx * ny := Nat.mul_comm ny nx
  omega

/-- Every output index below `nx * ny * nc` is the rotated, channel-reversed
index of a pixel and a channel. -/
theorem outIndex_surj (nx ny nc idx : Nat) (h : idx < nx * ny * nc) :
    ∃ color row col, color < nc ∧ row < ny ∧ col < nx ∧
      idx = ((ny - 1 - row) * nx + (nx - 1 - col)) * nc + (nc - 1 - color) := by
  have hnc : 0 < nc := by
    rcases Nat.eq_zero_or_pos nc with h0 | h0
    · subst h0; simp at h
    · exact h0
  have hnx : 0 < nx := by
    rcases Nat.eq_zero_or_pos nx with h0 | h0
    · subst h0; simp at h
    · exact h0
  have hp : idx / nc < nx * ny := by
    apply Nat.div_lt_of_lt_mul
    calc idx < nx * ny * nc := h
      _ = nc * (nx * ny) := Nat.mul_comm _ _
  have hq : idx % nc < nc := Nat.mod_lt idx hnc
  have hrow : idx / nc / nx < ny := by
    apply Nat.div_lt_of_lt_mul
    exact hp
  have hcol : idx / nc % nx < nx := Nat.mod_lt _ hnx
  have hdecomp : idx = (idx / nc / nx * nx + idx / nc % nx) * nc + idx % nc := by
    rw [Nat.mul_comm (idx / nc / nx) nx, Nat.div_add_mod, Nat.mul_comm (idx / nc) nc,
      Nat.div_add_mod]
  generalize idx / nc / nx = a at hrow hdecomp
  generalize idx / nc % nx = b at hcol hdecomp
  generalize idx % nc = q at hq hdecomp
  refine ⟨nc - 1 - q, ny - 1 - a, nx - 1 - b, by omega, by omega, by omega, ?_⟩
  have e1 : ny - 1 - (ny - 1 - a) = a := by omega
  have e2 : nx - 1 - (nx - 1 - b) = b := by omega
  have e3 : nc - 1 - (nc - 1 - q) = q := by omega
  rw [e1, e2, e3]
  exact hdecomp

end IndexLemmas

/-! ## The intensity extractor -/

section IntensityLemmas

variable {R : Type} [LinearOrderedField R] [FloorRing R]

theorem Cpx.mag2_nonneg (z : Cpx R) : 0 ≤ z.mag2 := by
  unfold Cpx.mag2
  nlinarith [mul_self_nonneg z.re, mul_self_nonneg z.im]

/-- The min/max scan over a list of pixels. -/
theorem minmax_fold (nx : Nat) (wf : Wavefield R) :
    ∀ (ps : List (Nat × Nat)) (st : MinMax R),
      st.maxIntensity ≤ (ps.foldl (fun acc p => minMaxStep nx wf p.1 p.2 acc) st).maxIntensity
      ∧ (∀ p ∈ ps, (wf (p.1 * nx + p.2)).mag2 ≤ (ps.foldl (fun acc p => minMaxStep nx wf p.1 p.2 acc) st).maxIntensity)
      ∧ ((ps.foldl (fun acc p => minMaxStep nx wf p.1 p.2 acc) st).maxIntensity = st.maxIntensity
          ∨ ∃ p ∈ ps, (ps.foldl (fun acc p => minMaxStep nx wf p.1 p.2 acc) st).maxIntensity = (wf (p.1 * nx + p.2)).mag2)
      ∧ (ps.foldl (fun acc p => minMaxStep nx wf p.1 p.2 acc) st).minIntensity ≤ st.minIntensity
      ∧ (∀ p ∈ ps, (ps.foldl (fun acc p => minMaxStep nx wf p.1 p.2 acc) st).minIntensity ≤ (wf (p.1 * nx + p.2)).mag2)
      ∧ ((ps.foldl (fun acc p => minMaxStep nx wf p.1 p.2 acc) st).minIntensity = st.minIntensity
          ∨ ∃ p ∈ ps, (ps.foldl (fun acc p => minMaxStep nx wf p.1 p.2 acc) st).minIntensity = (wf (p.1 * nx + p.2)).mag2)
      ∧ (∀ j, (st.intensityFieldUnnormalized j = (wf j).mag2 ∨ ∃ p ∈ ps, p.1 * nx + p.2 = j) →
          (ps.foldl (fun acc p => minMaxStep nx wf p.1 p.2 acc) st).intensityFieldUnnormalized j = (wf j).mag2) := by
  intro ps
  induction ps with
  | nil =>
    intro st
    simp
  | cons q qs ih =>
    intro st
    simp only [List.foldl_cons]
    obtain ⟨h1, h2, h3, h4, h5, h6, h7⟩ := ih (minMaxStep nx wf q.1 q.2 st)
    have e1 : (minMaxStep nx wf q.1 q.2 st).maxIntensity
        = max st.maxIntensity (wf (q.1 * nx + q.2)).mag2 := by simp [minMaxStep]
    have e2 : (minMaxStep nx wf q.1 q.2 st).minIntensity
        = min st.minIntensity (wf (q.1 * nx + q.2)).mag2 := by simp [minMaxStep]
    have e3 : (minMaxStep nx wf q.1 q.2 st).intensityFieldUnnormalized
        = Function.update st.intensityFieldUnnormalized (q.1 * nx + q.2)
            (wf (q.1 * nx + q.2)).mag2 := rfl
    rw [e1] at h1 h3
    rw [e2] at h4 h6
    rw [e3] at h7
    refine ⟨le_trans (le_max_left _ _) h1, ?_, ?_, le_trans h4 (min_le_left _ _), ?_, ?_, ?_⟩
    · intro p hp
      rcases List.mem_cons.mp hp with rfl | hp2
      · exact le_trans (le_max_right _ _) h1
      · exact h2 p hp2
    · rcases h3 with h3 | ⟨p, hp, h3⟩
      · rcases max_choice st.maxIntensity (wf (q.1 * nx + q.2)).mag2 with hm | hm
        · left; rw [h3, hm]
        · right; exact ⟨q, List.mem_cons_self q qs, by rw [h3, hm]⟩
      · right; exact ⟨p, List.mem_cons_of_mem q hp, h3⟩
    · intro p hp
      rcases List.mem_cons.mp hp with rfl | hp2
      · exact le_trans h4 (min_le_right _ _)
      · exact h5 p hp2
    · rcases h6 with h6 | ⟨p, hp, h6⟩
      · rcases min_choice st.minIntensity (wf (q.1 * nx + q.2)).mag2 with hm | hm
        · left; rw [h6, hm]
        · right; exact ⟨q, List.mem_cons_self q qs, by rw [h6, hm]⟩
      · right; exact ⟨p, List.mem_cons_of_mem q hp, h6⟩
    · intro j hj
      apply h7 j
      rcases hj with hj | ⟨p, hp, hj⟩
      · left
        by_cases hjq : j = q.1 * nx + q.2
        · subst hjq; simp
        · simp [Function.update_apply, hjq, hj]
      · rcases List.mem_cons.mp hp with rfl | hp2
        · left; subst hj; simp
        · right; exact ⟨p, hp2, hj⟩

/-- What the min/max scan of one channel returns. -/
theorem findMinMax_spec (env : Env R) (nx ny : Nat) (wf : Wavefield R) :
    0 ≤ (findMinMax env nx ny wf).maxIntensity
    ∧ (∀ r c, r < ny → c < nx → (wf (r * nx + c)).mag2 ≤ (findMinMax env nx ny wf).maxIntensity)
    ∧ ((findMinMax env nx ny wf).maxIntensity = 0
        ∨ ∃ r c, r < ny ∧ c < nx ∧ (findMinMax env nx ny wf).maxIntensity = (wf (r * nx + c)).mag2)
    ∧ (findMinMax env nx ny wf).minIntensity ≤ env.REAL_MAX
    ∧ (∀ r c, r < ny → c < nx → (findMinMax env nx ny wf).minIntensity ≤ (wf (r * nx + c)).mag2)
    ∧ ((findMinMax env nx ny wf).minIntensity = env.REAL_MAX
        ∨ ∃ r c, r < ny ∧ c < nx ∧ (findMinMax env nx ny wf).minIntensity = (wf (r * nx + c)).mag2)
    ∧ (∀ r c, r < ny → c < nx →
        (findMinMax env nx ny wf).intensityFieldUnnormalized (r * nx + c) = (wf (r * nx + c)).mag2) := by
  unfold findMinMax
  rw [forRange_nested]
  obtain ⟨h1, h2, h3, h4, h5, h6, h7⟩ := minmax_fold nx wf
    (List.product (List.range ny) (List.range nx))
    { intensityFieldUnnormalized := fun _ => 0, maxIntensity := 0, minIntensity := env.REAL_MAX }
  refine ⟨h1, ?_, ?_, h4, ?_, ?_, ?_⟩
  · intro r c hr hc
    exact h2 (r, c) ((mem_pixels ny nx (r, c)).mpr ⟨hr, hc⟩)
  · rcases h3 with h3 | ⟨p, hp, h3⟩
    · exact Or.inl h3
    · exact Or.inr ⟨p.1, p.2, ((mem_pixels ny nx p).mp hp).1, ((mem_pixels ny nx p).mp hp).2, h3⟩
  · intro r c hr hc
    exact h5 (r, c) ((mem_pixels ny nx (r, c)).mpr ⟨hr, hc⟩)
  · rcases h6 with h6 | ⟨p, hp, h6⟩
    · exact Or.inl h6
    · exact Or.inr ⟨p.1, p.2, ((mem_pixels ny nx p).mp hp).1, ((mem_pixels ny nx p).mp hp).2, h6⟩
  · intro r c hr hc
    exact h7 (r * nx + c) (Or.inr ⟨(r, c), (mem_pixels ny nx (r, c)).mpr ⟨hr, hc⟩, rfl⟩)

/-- One pass of the loop over `color`: the bytes of that channel are written at
the rotated positions of the channel, every other byte is kept. -/
theorem intensityChannel_spec (env : Env R) (s : Engine R) (wfs : List (Wavefield R))
    (color : Nat) (out : Nat → Nat) (hcolor : color < getNumColors s) :
    (∀ row col, row < getResY s → col < getResX s →
      intensityChannel env s wfs color out
          (((getResY s - 1 - row) * getResX s + (getResX s - 1 - col)) * getNumColors s
            + (getNumColors s - 1 - color))
        = if (findMinMax env (getResX s) (getResY s)
                (wfs.getD color (fun _ => Cpx.zero))).maxIntensity * getNor s
              ≤ (findMinMax env (getResX s) (getResY s)
                (wfs.getD color (fun _ => Cpx.zero))).minIntensity
          then 0
          else ucharOfReal (min 1
            ((((wfs.getD color (fun _ => Cpx.zero)) (row * getResX s + col)).mag2
                - (findMinMax env (getResX s) (getResY s)
                    (wfs.getD color (fun _ => Cpx.zero))).minIntensity)
              / ((findMinMax env (getResX s) (getResY s)
                    (wfs.getD color (fun _ => Cpx.zero))).maxIntensity * getNor s
                - (findMinMax env (getResX s) (getResY s)
                    (wfs.getD color (fun _ => Cpx.zero))).minIntensity)) * 255))
    ∧ (∀ j, (∀ row col, row < getResY s → col < getResX s →
          j ≠ ((getResY s - 1 - row) * getResX s + (getResX s - 1 - col)) * getNumColors s
            + (getNumColors s - 1 - color)) →
        intensityChannel env s wfs color out j = out j) := by
  generalize hnx : getResX s = nx
  generalize hny : getResY s = ny
  generalize hnc : getNumColors s = nc at hcolor
  generalize hwf : wfs.getD color (fun _ => Cpx.zero) = wf
  have hmm := findMinMax_spec env nx ny wf
  unfold intensityChannel
  simp only [hnx, hny, hnc, hwf]
  by_cases hdeg : (findMinMax env nx ny wf).maxIntensity * getNor s
      ≤ (findMinMax env nx ny wf).minIntensity
  · simp only [hdeg, if_true]
    have key := pixelLoop_local ny nx (fun r c => (r * nx + c) * nc + (nc - 1 - color))
      (fun _ _ (_ : Nat) => 0)
      (by
        intro r c r2 c2 hr hc hr2 hc2 h
        have h1 := channelIndex_inj nc (r * nx + c) color (r2 * nx + c2) color hcolor hcolor h
        exact plainIndex_inj nx ny r c r2 c2 hr hc hr2 hc2 h1.1)
      out
    refine ⟨?_, ?_⟩
    · intro row col hrow hcol
      exact key.1 (ny - 1 - row) (nx - 1 - col) (by omega) (by omega)
    · intro j hj
      apply key.2 j
      intro r c hr hc
      have := hj (ny - 1 - r) (nx - 1 - c) (by omega) (by omega)
      have e1 : ny - 1 - (ny - 1 - r) = r := by omega
      have e2 : nx - 1 - (nx - 1 - c) = c := by omega
      rw [e1, e2] at this
      exact this
  · simp only [hdeg, if_false]
    have key := pixelLoop_local ny nx
      (fun r c => ((ny - 1 - r) * nx + (nx - 1 - c)) * nc + (nc - 1 - color))
      (fun r c (_ : Nat) => ucharOfReal (min 1
        (((findMinMax env nx ny wf).intensityFieldUnnormalized (r * nx + c)
            - (findMinMax env nx ny wf).minIntensity)
          / ((findMinMax env nx ny wf).maxIntensity * getNor s
            - (findMinMax env nx ny wf).minIntensity)) * 255))
      (by
        intro r c r2 c2 hr hc hr2 hc2 h
        have h1 := channelIndex_inj nc _ color _ color hcolor hcolor h
        exact rotIndex_inj nx ny r c r2 c2 hr hc hr2 hc2 h1.1)
      out
    refine ⟨?_, ?_⟩
    · intro row col hrow hcol
      have := key.1 row col hrow hcol
      rw [hmm.2.2.2.2.2.2 row col hrow hcol] at this
      exact this
    · intro j hj
      exact key.2 j hj

/-- The image after the loop over `color`: every byte at a rotated,
channel-reversed position holds the byte computed for that pixel and channel. -/
theorem colorLoop_spec (env : Env R) (s : Engine R) (wfs : List (Wavefield R)) (init : Nat → Nat) :
    ∀ n, n ≤ getNumColors s → ∀ color row col, color < n → row < getResY s → col < getResX s →
      forRange n (fun color intensityField =>
          intensityChannel env s wfs color intensityField) init
          (((getResY s - 1 - row) * getResX s + (getResX s - 1 - col)) * getNumColors s
            + (getNumColors s - 1 - color))
        = if (findMinMax env (getResX s) (getResY s)
                (wfs.getD color (fun _ => Cpx.zero))).maxIntensity * getNor s
              ≤ (findMinMax env (getResX s) (getResY s)
                (wfs.getD color (fun _ => Cpx.zero))).minIntensity
          then 0
          else ucharOfReal (min 1
            ((((wfs.getD color (fun _ => Cpx.zero)) (row * getResX s + col)).mag2
                - (findMinMax env (getResX s) (getResY s)
                    (wfs.getD color (fun _ => Cpx.zero))).minIntensity)
              / ((findMinMax env (getResX s) (getResY s)
                    (wfs.getD color (fun _ => Cpx.zero))).maxIntensity * getNor s
                - (findMinMax env (getResX s) (getResY s)
                    (wfs.getD color (fun _ => Cpx.zero))).minIntensity)) * 255) := by
  intro n
  induction n with
  | zero => intro _ color _ _ hc; exact absurd hc (Nat.not_lt_zero color)
  | succ m ih =>
    intro hm color row col hc hrow hcol
    rw [forRange_succ]
    have hspec := intensityChannel_spec env s wfs m
      (forRange m (fun color intensityField =>
        intensityChannel env s wfs color intensityField) init) (by omega)
    rcases Nat.lt_succ_iff_lt_or_eq.mp hc with hlt | heq
    · rw [hspec.2]
      · exact ih (by omega) color row col hlt hrow hcol
      · intro r2 c2 _ _ h
        have := channelIndex_inj (getNumColors s) _ color _ m (by omega) (by omega) h
        omega
    · subst heq
      exact hspec.1 row col hrow hcol

/-- The extractor returns an image of `nx * ny * numColors` bytes whose byte at
the rotated, channel-reversed position of a pixel is the byte computed from
that pixel's sample. -/
theorem getIntensityfields_pix (env : Env R) (s : Engine R) (wfs : List (Wavefield R))
    (hn : getNumColors s = 1 ∨ getNumColors s = 3) :
    ∃ img, getIntensityfields env s wfs = some img
      ∧ img.size = getResX s * getResY s * getNumColors s
      ∧ ∀ color row col, color < getNumColors s → row < getResY s → col < getResX s →
        img.pix (((getResY s - 1 - row) * getResX s + (getResX s - 1 - col)) * getNumColors s
            + (getNumColors s - 1 - color))
        = if (findMinMax env (getResX s) (getResY s)
                (wfs.getD color (fun _ => Cpx.zero))).maxIntensity * getNor s
              ≤ (findMinMax env (getResX s) (getResY s)
                (wfs.getD color (fun _ => Cpx.zero))).minIntensity
          then 0
          else ucharOfReal (min 1
            ((((wfs.getD color (fun _ => Cpx.zero)) (row * getResX s + col)).mag2
                - (findMinMax env (getResX s) (getResY s)
                    (wfs.getD color (fun _ => Cpx.zero))).minIntensity)
              / ((findMinMax env (getResX s) (getResY s)
                    (wfs.getD color (fun _ => Cpx.zero))).maxIntensity * getNor s
                - (findMinMax env (getResX s) (getResY s)
                    (wfs.getD color (fun _ => Cpx.zero))).minIntensity)) * 255) := by
  have hnot : ¬ (getNumColors s ≠ 1 ∧ getNumColors s ≠ 3) := by
    rintro ⟨h1, h3⟩
    rcases hn with h | h
    · exact h1 h
    · exact h3 h
  unfold getIntensityfields
  simp only [hnot, if_false]
  refine ⟨_, rfl, rfl, ?_⟩
  intro color row col hc hrow hcol
  exact colorLoop_spec env s wfs _ (getNumColors s) (le_refl _) color row col hc hrow hcol

/-- When the squared magnitudes of a channel have minimum `mn` and maximum `mx`
and `mn` does not exceed `REAL_MAX`, the scan returns `mn` and `mx`. -/
theorem findMinMax_extremes (env : Env R) (nx ny : Nat) (wf : Wavefield R) (mn mx : R)
    (hmin : ∀ r c, r < ny → c < nx → mn ≤ (wf (r * nx + c)).mag2)
    (hminAt : ∃ r c, r < ny ∧ c < nx ∧ (wf (r * nx + c)).mag2 = mn)
    (hmax : ∀ r c, r < ny → c < nx → (wf (r * nx + c)).mag2 ≤ mx)
    (hmaxAt : ∃ r c, r < ny ∧ c < nx ∧ (wf (r * nx + c)).mag2 = mx)
    (hfin : mn ≤ env.REAL_MAX) :
    (findMinMax env nx ny wf).minIntensity = mn ∧ (findMinMax env nx ny wf).maxIntensity = mx := by
  obtain ⟨h1, h2, h3, _, h5, h6, _⟩ := findMinMax_spec env nx ny wf
  obtain ⟨r1, c1, hr1, hc1, e1⟩ := hminAt
  obtain ⟨r2, c2, hr2, hc2, e2⟩ := hmaxAt
  constructor
  · apply le_antisymm
    · rw [← e1]; exact h5 r1 c1 hr1 hc1
    · rcases h6 with h6 | ⟨r, c, hr, hc, h6⟩
      · rw [h6]; exact hfin
      · rw [h6]; exact hmin r c hr hc
  · apply le_antisymm
    · rcases h3 with h3 | ⟨r, c, hr, hc, h3⟩
      · rw [h3, ← e2]; exact Cpx.mag2_nonneg _
      · rw [h3]; exact hmax r c hr hc
    · rw [← e2]; exact h2 r2 c2 hr2 hc2

/-- The cast of `min(1.0, x) * 255` for a non-negative `x` is the floor of the
clamped value times 255. -/
theorem ucharOfReal_clamp (x : R) (hx : 0 ≤ x) :
    ucharOfReal (min 1 x * 255) = ⌊clamp01 x * 255⌋₊ := by
  have h0 : 0 ≤ min 1 x := le_min zero_le_one hx
  have hc : clamp01 x = min 1 x := by
    unfold clamp01
    exact max_eq_right h0
  rw [hc]
  unfold ucharOfReal
  apply Nat.mod_eq_of_lt
  have h1 : min 1 x * 255 < ((256 : Nat) : R) := by
    have : min 1 x ≤ 1 := min_le_left _ _
    push_cast
    linarith
  exact (Nat.floor_lt (by positivity)).mpr h1

theorem ucharOfReal_zero : ucharOfReal (min 1 (0 : R) * 255) = 0 := by
  have h : min 1 (0 : R) = 0 := min_eq_right zero_le_one
  rw [h]
  simp [ucharOfReal]

theorem ucharOfReal_one : ucharOfReal (min 1 (1 : R) * 255) = 255 := by
  have h : min 1 (1 : R) = 1 := min_self 1
  rw [h, one_mul]
  unfold ucharOfReal
  have : ⌊(255 : R)⌋₊ = 255 := by simp
  rw [this]

/-- In a channel that is not degenerate the byte of a pixel is the floor of the
clamped, normalised squared magnitude times 255. -/
theorem intensity_byte_floor (env : Env R) (s : Engine R) (wfs : List (Wavefield R))
    (c row col : Nat) (mn mx : R)
    (hn : getNumColors s = 1 ∨ getNumColors s = 3)
    (hc : c < getNumColors s) (hrow : row < getResY s) (hcol : col < getResX s)
    (hmin : ∀ r k, r < getResY s → k < getResX s →
      mn ≤ ((wfs.getD c (fun _ => Cpx.zero)) (r * getResX s + k)).mag2)
    (hminAt : ∃ r k, r < getResY s ∧ k < getResX s ∧
      ((wfs.getD c (fun _ => Cpx.zero)) (r * getResX s + k)).mag2 = mn)
    (hmax : ∀ r k, r < getResY s → k < getResX s →
      ((wfs.getD c (fun _ => Cpx.zero)) (r * getResX s + k)).mag2 ≤ mx)
    (hmaxAt : ∃ r k, r < getResY s ∧ k < getResX s ∧
      ((wfs.getD c (fun _ => Cpx.zero)) (r * getResX s + k)).mag2 = mx)
    (hfin : mn ≤ env.REAL_MAX)
    (hnd : mn < mx * getNor s) :
    ∃ img, getIntensityfields env s wfs = some img
      ∧ img.size = getResX s * getResY s * getNumColors s
      ∧ img.pix (((getResY s - 1 - row) * getResX s + (getResX s - 1 - col)) * getNumColors s
            + (getNumColors s - 1 - c))
        = ⌊clamp01 ((((wfs.getD c (fun _ => Cpx.zero)) (row * getResX s + col)).mag2 - mn)
            / (mx * getNor s - mn)) * 255⌋₊ := by
  obtain ⟨img, himg, hsize, hpix⟩ := getIntensityfields_pix env s wfs hn
  obtain ⟨emin, emax⟩ := findMinMax_extremes env (getResX s) (getResY s)
    (wfs.getD c (fun _ => Cpx.zero)) mn mx hmin hminAt hmax hmaxAt hfin
  refine ⟨img, himg, hsize, ?_⟩
  rw [hpix c row col hc hrow hcol, emin, emax, if_neg (not_le.mpr hnd)]
  apply ucharOfReal_clamp
  apply div_nonneg
  · linarith [hmin row col hrow hcol]
  · linarith

end IntensityLemmas

/-! ## The intensity extractor with rounding -/

section RoundedIntensityLemmas

variable {R : Type} [LinearOrderedField R] [FloorRing R]

/-- With the exact arithmetic `fl = id` the extractor with rounding is
`getIntensityfields`. -/
theorem getIntensityfieldsRounded_id (env : Env R) (s : Engine R) (wfs : List (Wavefield R)) :
    getIntensityfieldsRounded id env s wfs = getIntensityfields env s wfs := rfl

/-- A rounded squared magnitude is not negative, for a monotone rounding that
keeps `0`. -/
theorem Cpx.mag2Rounded_nonneg (fl : R → R) (hmono : Monotone fl) (h0 : fl 0 = 0) (z : Cpx R) :
    0 ≤ Cpx.mag2Rounded fl z := by
  unfold Cpx.mag2Rounded
  have h1 : 0 ≤ fl (z.re * z.re) := by
    have := hmono (mul_self_nonneg z.re)
    rwa [h0] at this
  have h2 : 0 ≤ fl (z.im * z.im) := by
    have := hmono (mul_self_nonneg z.im)
    rwa [h0] at this
  have h3 := hmono (add_nonneg h1 h2)
  rwa [h0] at h3

/-- The min/max scan with rounding over a list of pixels. -/
theorem minmax_fold_rounded (fl : R → R) (nx : Nat) (wf : Wavefield R) :
    ∀ (ps : List (Nat × Nat)) (st : MinMax R),
      st.maxIntensity ≤ (ps.foldl (fun acc p => minMaxStepRounded fl nx wf p.1 p.2 acc) st).maxIntensity
      ∧ (∀ p ∈ ps, Cpx.mag2Rounded fl (wf (p.1 * nx + p.2)) ≤ (ps.foldl (fun acc p => minMaxStepRounded fl nx wf p.1 p.2 acc) st).maxIntensity)
      ∧ ((ps.foldl (fun acc p => minMaxStepRounded fl nx wf p.1 p.2 acc) st).maxIntensity = st.maxIntensity
          ∨ ∃ p ∈ ps, (ps.foldl (fun acc p => minMaxStepRounded fl nx wf p.1 p.2 acc) st).maxIntensity = Cpx.mag2Rounded fl (wf (p.1 * nx + p.2)))
      ∧ (ps.foldl (fun acc p => minMaxStepRounded fl nx wf p.1 p.2 acc) st).minIntensity ≤ st.minIntensity
      ∧ (∀ p ∈ ps, (ps.foldl (fun acc p => minMaxStepRounded fl nx wf p.1 p.2 acc) st).minIntensity ≤ Cpx.mag2Rounded fl (wf (p.1 * nx + p.2)))
      ∧ ((ps.foldl (fun acc p => minMaxStepRounded fl nx wf p.1 p.2 acc) st).minIntensity = st.minIntensity
          ∨ ∃ p ∈ ps, (ps.foldl (fun acc p => minMaxStepRounded fl nx wf p.1 p.2 acc) st).minIntensity = Cpx.mag2Rounded fl (wf (p.1 * nx + p.2)))
      ∧ (∀ j, (st.intensityFieldUnnormalized j = Cpx.mag2Rounded fl (wf j)
            ∨ ∃ p ∈ ps, p.1 * nx + p.2 = j) →
          (ps.foldl (fun acc p => minMaxStepRounded fl nx wf p.1 p.2 acc) st).intensityFieldUnnormalized j = Cpx.mag2Rounded fl (wf j)) := by
  intro ps
  induction ps with
  | nil =>
    intro st
    simp
  | cons q qs ih =>
    intro st
    simp only [List.foldl_cons]
    obtain ⟨h1, h2, h3, h4, h5, h6, h7⟩ := ih (minMaxStepRounded fl nx wf q.1 q.2 st)
    have e1 : (minMaxStepRounded fl nx wf q.1 q.2 st).maxIntensity
        = max st.maxIntensity (Cpx.mag2Rounded fl (wf (q.1 * nx + q.2))) := by
      simp [minMaxStepRounded]
    have e2 : (minMaxStepRounded fl nx wf q.1 q.2 st).minIntensity
        = min st.minIntensity (Cpx.mag2Rounded fl (wf (q.1 * nx + q.2))) := by
      simp [minMaxStepRounded]
    have e3 : (minMaxStepRounded fl nx wf q.1 q.2 st).intensityFieldUnnormalized
        = Function.update st.intensityFieldUnnormalized (q.1 * nx + q.2)
            (Cpx.mag2Rounded fl (wf (q.1 * nx + q.2))) := rfl
    rw [e1] at h1 h3
    rw [e2] at h4 h6
    rw [e3] at h7
    refine ⟨le_trans (le_max_left _ _) h1, ?_, ?_, le_trans h4 (min_le_left _ _), ?_, ?_, ?_⟩
    · intro p hp
      rcases List.mem_cons.mp hp with rfl | hp2
      · exact le_trans (le_max_right _ _) h1
      · exact h2 p hp2
    · rcases h3 with h3 | ⟨p, hp, h3⟩
      · rcases max_choice st.maxIntensity (Cpx.mag2Rounded fl (wf (q.1 * nx + q.2))) with hm | hm
        · left; rw [h3, hm]
        · right; exact ⟨q, List.mem_cons_self q qs, by rw [h3, hm]⟩
      · right; exact ⟨p, List.mem_cons_of_mem q hp, h3⟩
    · intro p hp
      rcases List.mem_cons.mp hp with rfl | hp2
      · exact le_trans h4 (min_le_right _ _)
      · exact h5 p hp2
    · rcases h6 with h6 | ⟨p, hp, h6⟩
      · rcases min_choice st.minIntensity (Cpx.mag2Rounded fl (wf (q.1 * nx + q.2))) with hm | hm
        · left; rw [h6, hm]
        · right; exact ⟨q, List.mem_cons_self q qs, by rw [h6, hm]⟩
      · right; exact ⟨p, List.mem_cons_of_mem q hp, h6⟩
    · intro j hj
      apply h7 j
      rcases hj with hj | ⟨p, hp, hj⟩
      · left
        by_cases hjq : j = q.1 * nx + q.2
        · subst hjq; simp
        · simp [Function.update_apply, hjq, hj]
      · rcases List.mem_cons.mp hp with rfl | hp2
        · left; subst hj; simp
        · right; exact ⟨p, hp2, hj⟩

/-- What the min/max scan with rounding returns for one channel. -/
theorem findMinMaxRounded_spec (fl : R → R) (env : Env R) (nx ny : Nat) (wf : Wavefield R) :
    0 ≤ (findMinMaxRounded fl env nx ny wf).maxIntensity
    ∧ (∀ r c, r < ny → c < nx →
        Cpx.mag2Rounded fl (wf (r * nx + c)) ≤ (findMinMaxRounded fl env nx ny wf).maxIntensity)
    ∧ ((findMinMaxRounded fl env nx ny wf).maxIntensity = 0
        ∨ ∃ r c, r < ny ∧ c < nx ∧
          (findMinMaxRounded fl env nx ny wf).maxIntensity = Cpx.mag2Rounded fl (wf (r * nx + c)))
    ∧ (findMinMaxRounded fl env nx ny wf).minIntensity ≤ env.REAL_MAX
    ∧ (∀ r c, r < ny → c < nx →
        (findMinMaxRounded fl env nx ny wf).minIntensity ≤ Cpx.mag2Rounded fl (wf (r * nx + c)))
    ∧ ((findMinMaxRounded fl env nx ny wf).minIntensity = env.REAL_MAX
        ∨ ∃ r c, r < ny ∧ c < nx ∧
          (findMinMaxRounded fl env nx ny wf).minIntensity = Cpx.mag2Rounded fl (wf (r * nx + c)))
    ∧ (∀ r c, r < ny → c < nx →
        (findMinMaxRounded fl env nx ny wf).intensityFieldUnnormalized (r * nx + c)
          = Cpx.mag2Rounded fl (wf (r * nx + c))) := by
  unfold findMinMaxRounded
  rw [forRange_nested]
  obtain ⟨h1, h2, h3, h4, h5, h6, h7⟩ := minmax_fold_rounded fl nx wf
    (List.product (List.range ny) (List.range nx))
    { intensityFieldUnnormalized := fun _ => 0, maxIntensity := 0, minIntensity := env.REAL_MAX }
  refine ⟨h1, ?_, ?_, h4, ?_, ?_, ?_⟩
  · intro r c hr hc
    exact h2 (r, c) ((mem_pixels ny nx (r, c)).mpr ⟨hr, hc⟩)
  · rcases h3 with h3 | ⟨p, hp, h3⟩
    · exact Or.inl h3
    · exact Or.inr ⟨p.1, p.2, ((mem_pixels ny nx p).mp hp).1, ((mem_pixels ny nx p).mp hp).2, h3⟩
  · intro r c hr hc
    exact h5 (r, c) ((mem_pixels ny nx (r, c)).mpr ⟨hr, hc⟩)
  · rcases h6 with h6 | ⟨p, hp, h6⟩
    · exact Or.inl h6
    · exact Or.inr ⟨p.1, p.2, ((mem_pixels ny nx p).mp hp).1, ((mem_pixels ny nx p).mp hp).2, h6⟩
  · intro r c hr hc
    exact h7 (r * nx + c) (Or.inr ⟨(r, c), (mem_pixels ny nx (r, c)).mpr ⟨hr, hc⟩, rfl⟩)

/-- One pass of the loop over `color`, with rounding: the bytes of that channel
are written at the rotated positions of the channel, every other byte is kept. -/
theorem intensityChannelRounded_spec (fl : R → R) (env : Env R) (s : Engine R)
    (wfs : List (Wavefield R)) (color : Nat) (out : Nat → Nat)
    (hcolor : color < getNumColors s) :
    (∀ row col, row < getResY s → col < getResX s →
      intensityChannelRounded fl env s wfs color out
          (((getResY s - 1 - row) * getResX s + (getResX s - 1 - col)) * getNumColors s
            + (getNumColors s - 1 - color))
        = if fl ((findMinMaxRounded fl env (getResX s) (getResY s)
                (wfs.getD color (fun _ => Cpx.zero))).maxIntensity * getNor s)
              ≤ (findMinMaxRounded fl env (getResX s) (getResY s)
                (wfs.getD color (fun _ => Cpx.zero))).minIntensity
          then 0
          else ucharOfReal (fl (min 1 (fl
            (fl (Cpx.mag2Rounded fl ((wfs.getD color (fun _ => Cpx.zero)) (row * getResX s + col))
                - (findMinMaxRounded fl env (getResX s) (getResY s)
                (wfs.getD color (fun _ => Cpx.zero))).minIntensity)
              / fl (fl ((findMinMaxRounded fl env (getResX s) (getResY s)
                (wfs.getD color (fun _ => Cpx.zero))).maxIntensity * getNor s)
                - (findMinMaxRounded fl env (getResX s) (getResY s)
                (wfs.getD color (fun _ => Cpx.zero))).minIntensity))) * 255)))
    ∧ (∀ j, (∀ row col, row < getResY s → col < getResX s →
          j ≠ (((getResY s - 1 - row) * getResX s + (getResX s - 1 - col)) * getNumColors s
            + (getNumColors s - 1 - color))) →
        intensityChannelRounded fl env s wfs color out j = out j) := by
  generalize hnx : getResX s = nx
  generalize hny : getResY s = ny
  generalize hnc : getNumColors s = nc at hcolor
  generalize hwf : wfs.getD color (fun _ => Cpx.zero) = wf
  have hmm := findMinMaxRounded_spec fl env nx ny wf
  unfold intensityChannelRounded
  simp only [hnx, hny, hnc, hwf]
  by_cases hdeg : fl ((findMinMaxRounded fl env nx ny wf).maxIntensity * getNor s)
      ≤ (findMinMaxRounded fl env nx ny wf).minIntensity
  · simp only [hdeg, if_true]
    have key := pixelLoop_local ny nx (fun r c => (r * nx + c) * nc + (nc - 1 - color))
      (fun _ _ (_ : Nat) => 0)
      (by
        intro r c r2 c2 hr hc hr2 hc2 h
        have h1 := channelIndex_inj nc (r * nx + c) color (r2 * nx + c2) color hcolor hcolor h
        exact plainIndex_inj nx ny r c r2 c2 hr hc hr2 hc2 h1.1)
      out
    refine ⟨?_, ?_⟩
    · intro row col hrow hcol
      exact key.1 (ny - 1 - row) (nx - 1 - col) (by omega) (by omega)
    · intro j hj
      apply key.2 j
      intro r c hr hc
      have := hj (ny - 1 - r) (nx - 1 - c) (by omega) (by omega)
      have e1 : ny - 1 - (ny - 1 - r) = r := by omega
      have e2 : nx - 1 - (nx - 1 - c) = c := by omega
      rw [e1, e2] at this
      exact this
  · simp only [hdeg, if_false]
    have key := pixelLoop_local ny nx
      (fun r c => ((ny - 1 - r) * nx + (nx - 1 - c)) * nc + (nc - 1 - color))
      (fun r c (_ : Nat) => ucharOfReal (fl (min 1 (fl
        (fl ((findMinMaxRounded fl env nx ny wf).intensityFieldUnnormalized (r * nx + c)
            - (findMinMaxRounded fl env nx ny wf).minIntensity)
          / fl (fl ((findMinMaxRounded fl env nx ny wf).maxIntensity * getNor s)
            - (findMinMaxRounded fl env nx ny wf).minIntensity))) * 255)))
      (by
        intro r c r2 c2 hr hc hr2 hc2 h
        have h1 := channelIndex_inj nc _ color _ color hcolor hcolor h
        exact rotIndex_inj nx ny r c r2 c2 hr hc hr2 hc2 h1.1)
      out
    refine ⟨?_, ?_⟩
    · intro row col hrow hcol
      have := key.1 row col hrow hcol
      rw [hmm.2.2.2.2.2.2 row col hrow hcol] at this
      exact this
    · intro j hj
      exact key.2 j hj

/-- The image after the loop over `color`, with rounding. -/
theorem colorLoopRounded_spec (fl : R → R) (env : Env R) (s : Engine R)
    (wfs : List (Wavefield R)) (init : Nat → Nat) :
    ∀ n, n ≤ getNumColors s → ∀ color row col, color < n → row < getResY s → col < getResX s →
      forRange n (fun color intensityField =>
          intensityChannelRounded fl env s wfs color intensityField) init
          (((getResY s - 1 - row) * getResX s + (getResX s - 1 - col)) * getNumColors s
            + (getNumColors s - 1 - color))
        = if fl ((findMinMaxRounded fl env (getResX s) (getResY s)
                (wfs.getD color (fun _ => Cpx.zero))).maxIntensity * getNor s)
              ≤ (findMinMaxRounded fl env (getResX s) (getResY s)
                (wfs.getD color (fun _ => Cpx.zero))).minIntensity
          then 0
          else ucharOfReal (fl (min 1 (fl
            (fl (Cpx.mag2Rounded fl ((wfs.getD color (fun _ => Cpx.zero)) (row * getResX s + col))
                - (findMinMaxRounded fl env (getResX s) (getResY s)
                (wfs.getD color (fun _ => Cpx.zero))).minIntensity)
              / fl (fl ((findMinMaxRounded fl env (getResX s) (getResY s)
                (wfs.getD color (fun _ => Cpx.zero))).maxIntensity * getNor s)
                - (findMinMaxRounded fl env (getResX s) (getResY s)
                (wfs.getD color (fun _ => Cpx.zero))).minIntensity))) * 255)) := by
  intro n
  induction n with
  | zero => intro _ color _ _ hc; exact absurd hc (Nat.not_lt_zero color)
  | succ m ih =>
    intro hm color row col hc hrow hcol
    rw [forRange_succ]
    have hspec := intensityChannelRounded_spec fl env s wfs m
      (forRange m (fun color intensityField =>
        intensityChannelRounded fl env s wfs color intensityField) init) (by omega)
    rcases Nat.lt_succ_iff_lt_or_eq.mp hc with hlt | heq
    · rw [hspec.2]
      · exact ih (by omega) color row col hlt hrow hcol
      · intro r2 c2 _ _ h
        have := channelIndex_inj (getNumColors s) _ color _ m (by omega) (by omega) h
        omega
    · subst heq
      exact hspec.1 row col hrow hcol

/-- The extractor with rounding returns an image whose byte at the rotated,
channel-reversed position of a pixel is the byte computed from that pixel's
sample. -/
theorem getIntensityfieldsRounded_pix (fl : R → R) (env : Env R) (s : Engine R)
    (wfs : List (Wavefield R)) (hn : getNumColors s = 1 ∨ getNumColors s = 3) :
    ∃ img, getIntensityfieldsRounded fl env s wfs = some img
      ∧ img.size = getResX s * getResY s * getNumColors s
      ∧ ∀ color row col, color < getNumColors s → row < getResY s → col < getResX s →
        img.pix (((getResY s - 1 - row) * getResX s + (getResX s - 1 - col)) * getNumColors s
            + (getNumColors s - 1 - color))
        = if fl ((findMinMaxRounded fl env (getResX s) (getResY s)
                (wfs.getD color (fun _ => Cpx.zero))).maxIntensity * getNor s)
              ≤ (findMinMaxRounded fl env (getResX s) (getResY s)
                (wfs.getD color (fun _ => Cpx.zero))).minIntensity
          then 0
          else ucharOfReal (fl (min 1 (fl
            (fl (Cpx.mag2Rounded fl ((wfs.getD color (fun _ => Cpx.zero)) (row * getResX s + col))
                - (findMinMaxRounded fl env (getResX s) (getResY s)
                (wfs.getD color (fun _ => Cpx.zero))).minIntensity)
              / fl (fl ((findMinMaxRounded fl env (getResX s) (getResY s)
                (wfs.getD color (fun _ => Cpx.zero))).maxIntensity * getNor s)
                - (findMinMaxRounded fl env (getResX s) (getResY s)
                (wfs.getD color (fun _ => Cpx.zero))).minIntensity))) * 255)) := by
  have hnot : ¬ (getNumColors s ≠ 1 ∧ getNumColors s ≠ 3) := by
    rintro ⟨h1, h3⟩
    rcases hn with h | h
    · exact h1 h
    · exact h3 h
  unfold getIntensityfieldsRounded
  simp only [hnot, if_false]
  refine ⟨_, rfl, rfl, ?_⟩
  intro color row col hc hrow hcol
  exact colorLoopRounded_spec fl env s wfs _ (getNumColors s) (le_refl _) color row col
    hc hrow hcol

/-- When the rounded squared magnitudes of a channel have minimum `mn` and
maximum `mx` and `mn` does not exceed `REAL_MAX`, the scan returns `mn` and
`mx`. -/
theorem findMinMaxRounded_extremes (fl : R → R) (hmono : Monotone fl) (h0 : fl 0 = 0)
    (env : Env R) (nx ny : Nat) (wf : Wavefield R) (mn mx : R)
    (hmin : ∀ r c, r < ny → c < nx → mn ≤ Cpx.mag2Rounded fl (wf (r * nx + c)))
    (hminAt : ∃ r c, r < ny ∧ c < nx ∧ Cpx.mag2Rounded fl (wf (r * nx + c)) = mn)
    (hmax : ∀ r c, r < ny → c < nx → Cpx.mag2Rounded fl (wf (r * nx + c)) ≤ mx)
    (hmaxAt : ∃ r c, r < ny ∧ c < nx ∧ Cpx.mag2Rounded fl (wf (r * nx + c)) = mx)
    (hfin : mn ≤ env.REAL_MAX) :
    (findMinMaxRounded fl env nx ny wf).minIntensity = mn
      ∧ (findMinMaxRounded fl env nx ny wf).maxIntensity = mx := by
  obtain ⟨h1, h2, h3, _, h5, h6, _⟩ := findMinMaxRounded_spec fl env nx ny wf
  obtain ⟨r1, c1, hr1, hc1, e1⟩ := hminAt
  obtain ⟨r2, c2, hr2, hc2, e2⟩ := hmaxAt
  constructor
  · apply le_antisymm
    · rw [← e1]; exact h5 r1 c1 hr1 hc1
    · rcases h6 with h6 | ⟨r, c, hr, hc, h6⟩
      · rw [h6]; exact hfin
      · rw [h6]; exact hmin r c hr hc
  · apply le_antisymm
    · rcases h3 with h3 | ⟨r, c, hr, hc, h3⟩
      · rw [h3, ← e2]; exact Cpx.mag2Rounded_nonneg fl hmono h0 _
      · rw [h3]; exact hmax r c hr hc
    · rw [← e2]; exact h2 r2 c2 hr2 hc2

/-- The cast of the rounded product `min(1.0, x) * 255` for a non-negative `x`
is the floor of the rounded product of the clamped value and 255, for a
monotone rounding that keeps `0` and `255`. -/
theorem ucharOfReal_rounded_clamp (fl : R → R) (hmono : Monotone fl) (h0 : fl 0 = 0)
    (h255 : fl 255 = 255) (x : R) (hx : 0 ≤ x) :
    ucharOfReal (fl (min 1 x * 255)) = ⌊fl (clamp01 x * 255)⌋₊ := by
  have hm0 : 0 ≤ min 1 x := le_min zero_le_one hx
  have hc : clamp01 x = min 1 x := by
    unfold clamp01
    exact max_eq_right hm0
  rw [hc]
  unfold ucharOfReal
  apply Nat.mod_eq_of_lt
  have hle : min 1 x * 255 ≤ 255 := by
    have : min 1 x ≤ 1 := min_le_left _ _
    linarith
  have hfl : fl (min 1 x * 255) ≤ 255 := by
    have := hmono hle
    rwa [h255] at this
  have hnn : 0 ≤ fl (min 1 x * 255) := by
    have := hmono (mul_nonneg hm0 (by norm_num : (0 : R) ≤ 255))
    rwa [h0] at this
  have h1 : fl (min 1 x * 255) < ((256 : Nat) : R) := by
    push_cast
    linarith
  exact (Nat.floor_lt hnn).mpr h1

end RoundedIntensityLemmas

/-! ## Claims about the intensity extractor -/

section IntensityClaims

variable {R : Type} [LinearOrderedField R] [FloorRing R]

/-- C2. Output placement: for `numColors` 1 or 3 the extractor returns an
image of `nx * ny * numColors` bytes; for every channel `c` and pixel
`(row, col)` the byte at index
`((ny-1-row)*nx + (nx-1-col))*numColors + (numColors-1-c)` is the quantised
intensity of the sample `waveFields[c][row*nx + col]` (`0` throughout a
degenerate channel), and every output index below `nx * ny * numColors` is the
index of exactly one channel and pixel. -/
theorem getIntensityfields_placement (env : Env R) (s : Engine R) (waveFields : List (Wavefield R))
    (hn : getNumColors s = 1 ∨ getNumColors s = 3) :
    ∃ img, getIntensityfields env s waveFields = some img
      ∧ img.size = getResX s * getResY s * getNumColors s
      ∧ (∀ c row col, c < getNumColors s → row < getResY s → col < getResX s →
        img.pix (((getResY s - 1 - row) * getResX s + (getResX s - 1 - col)) * getNumColors s
            + (getNumColors s - 1 - c))
        = if (findMinMax env (getResX s) (getResY s)
                (waveFields.getD c (fun _ => Cpx.zero))).maxIntensity * getNor s
              ≤ (findMinMax env (getResX s) (getResY s)
                (waveFields.getD c (fun _ => Cpx.zero))).minIntensity
          then 0
          else ucharOfReal (min 1
            ((((waveFields.getD c (fun _ => Cpx.zero)) (row * getResX s + col)).mag2
                - (findMinMax env (getResX s) (getResY s)
                    (waveFields.getD c (fun _ => Cpx.zero))).minIntensity)
              / ((findMinMax env (getResX s) (getResY s)
                    (waveFields.getD c (fun _ => Cpx.zero))).maxIntensity * getNor s
                - (findMinMax env (getResX s) (getResY s)
                    (waveFields.getD c (fun _ => Cpx.zero))).minIntensity)) * 255))
      ∧ (∀ idx, idx < img.size →
          ∃! t : Nat × Nat × Nat, t.1 < getNumColors s ∧ t.2.1 < getResY s ∧ t.2.2 < getResX s
            ∧ idx = ((getResY s - 1 - t.2.1) * getResX s + (getResX s - 1 - t.2.2))
                * getNumColors s + (getNumColors s - 1 - t.1)) := by
  obtain ⟨img, himg, hsize, hpix⟩ := getIntensityfields_pix env s waveFields hn
  refine ⟨img, himg, hsize, hpix, ?_⟩
  intro idx hidx
  rw [hsize] at hidx
  obtain ⟨color, row, col, hc, hrow, hcol, e⟩ :=
    outIndex_surj (getResX s) (getResY s) (getNumColors s) idx hidx
  refine ⟨(color, row, col), ⟨hc, hrow, hcol, e⟩, ?_⟩
  rintro ⟨c2, r2, k2⟩ ⟨hc2, hr2, hk2, e2⟩
  have h1 := channelIndex_inj (getNumColors s) _ c2 _ color hc2 hc (e2.symm.trans e)
  have h2 := rotIndex_inj (getResX s) (getResY s) r2 k2 row col hr2 hk2 hrow hcol h1.1
  rw [h1.2, h2.1, h2.2]

/-- C2, instance: the one-channel 3 x 1 image of the ramp field has 3 bytes and
its byte 0 comes from pixel `(0, 2)` alone. -/
theorem getIntensityfields_placement_witness :
    (getNumColors (unitEngine 1 3 1 [rampField]) = 1
        ∨ getNumColors (unitEngine 1 3 1 [rampField]) = 3)
      ∧ ∃ img, getIntensityfields ratEnv (unitEngine 1 3 1 [rampField]) [rampField] = some img
        ∧ img.size = 3
        ∧ ∃! t : Nat × Nat × Nat, t.1 < 1 ∧ t.2.1 < 1 ∧ t.2.2 < 3
            ∧ 0 = ((1 - 1 - t.2.1) * 3 + (3 - 1 - t.2.2)) * 1 + (1 - 1 - t.1) := by
  refine ⟨Or.inl rfl, ?_⟩
  obtain ⟨img, himg, hsize, _, huniq⟩ :=
    getIntensityfields_placement ratEnv (unitEngine 1 3 1 [rampField]) [rampField] (Or.inl rfl)
  exact ⟨img, himg, hsize, huniq 0 (by rw [hsize]; decide)⟩

/-- C4. Channel-count validation: the extractor returns its failure result
exactly when `numColors` is neither 1 nor 3; in particular it fails for
`numColors = 2`, and for `numColors` 1 or 3 it returns a buffer of
`nx * ny * numColors` bytes. -/
theorem getIntensityfields_channelCount (env : Env R) (s : Engine R)
    (waveFields : List (Wavefield R)) :
    (getIntensityfields env s waveFields = none
        ↔ (getNumColors s ≠ 1 ∧ getNumColors s ≠ 3))
      ∧ (getNumColors s = 2 → getIntensityfields env s waveFields = none)
      ∧ (getNumColors s = 1 ∨ getNumColors s = 3 →
          ∃ img, getIntensityfields env s waveFields = some img
            ∧ img.size = getResX s * getResY s * getNumColors s) := by
  have hiff : getIntensityfields env s waveFields = none
      ↔ (getNumColors s ≠ 1 ∧ getNumColors s ≠ 3) := by
    unfold getIntensityfields
    by_cases h : getNumColors s ≠ 1 ∧ getNumColors s ≠ 3
    · rw [if_pos h]
      exact ⟨fun _ => h, fun _ => rfl⟩
    · rw [if_neg h]
      exact ⟨fun hcontra => Option.noConfusion hcontra, fun hcontra => absurd hcontra h⟩
  refine ⟨hiff, ?_, ?_⟩
  · intro h2
    exact hiff.mpr ⟨by omega, by omega⟩
  · intro hn
    obtain ⟨img, himg, hsize, _⟩ := getIntensityfields_pix env s waveFields hn
    exact ⟨img, himg, hsize⟩

/-- C3, as amended. Byte value: in a channel that is not degenerate
(`scaledMax > min`, with `min` and `max` the minimum and maximum squared
magnitude of the channel over the grid and `scaledMax = max * normalizationFactor`)
the byte emitted for a pixel is `v * 255` truncated toward zero (its floor),
not rounded, with `v = clamp((mag² - min)/(scaledMax - min), 0, 1)`, where the
squared magnitudes, `scaledMax`, the two differences, the quotient and the
product `v * 255` are the values of `Real` arithmetic: each result is rounded
by `fl`, a monotone rounding that keeps `0` and `255`. -/
theorem getIntensityfields_byte_truncated (fl : R → R) (env : Env R) (s : Engine R)
    (waveFields : List (Wavefield R)) (c row col : Nat) (mn mx : R)
    (hmono : Monotone fl) (h0 : fl 0 = 0) (h255 : fl 255 = 255)
    (hn : getNumColors s = 1 ∨ getNumColors s = 3)
    (hc : c < getNumColors s) (hrow : row < getResY s) (hcol : col < getResX s)
    (hmin : ∀ r k, r < getResY s → k < getResX s →
      mn ≤ Cpx.mag2Rounded fl ((waveFields.getD c (fun _ => Cpx.zero)) (r * getResX s + k)))
    (hminAt : ∃ r k, r < getResY s ∧ k < getResX s ∧
      Cpx.mag2Rounded fl ((waveFields.getD c (fun _ => Cpx.zero)) (r * getResX s + k)) = mn)
    (hmax : ∀ r k, r < getResY s → k < getResX s →
      Cpx.mag2Rounded fl ((waveFields.getD c (fun _ => Cpx.zero)) (r * getResX s + k)) ≤ mx)
    (hmaxAt : ∃ r k, r < getResY s ∧ k < getResX s ∧
      Cpx.mag2Rounded fl ((waveFields.getD c (fun _ => Cpx.zero)) (r * getResX s + k)) = mx)
    (hfin : mn ≤ env.REAL_MAX)
    (hnd : mn < fl (mx * getNor s)) :
    ∃ img, getIntensityfieldsRounded fl env s waveFields = some img
      ∧ img.pix (((getResY s - 1 - row) * getResX s + (getResX s - 1 - col)) * getNumColors s
            + (getNumColors s - 1 - c))
        = ⌊fl (clamp01 (fl
            (fl (Cpx.mag2Rounded fl
                  ((waveFields.getD c (fun _ => Cpx.zero)) (row * getResX s + col)) - mn)
              / fl (fl (mx * getNor s) - mn))) * 255)⌋₊ := by
  obtain ⟨img, himg, _, hpix⟩ := getIntensityfieldsRounded_pix fl env s waveFields hn
  obtain ⟨emin, emax⟩ := findMinMaxRounded_extremes fl hmono h0 env (getResX s) (getResY s)
    (waveFields.getD c (fun _ => Cpx.zero)) mn mx hmin hminAt hmax hmaxAt hfin
  refine ⟨img, himg, ?_⟩
  rw [hpix c row col hc hrow hcol, emin, emax, if_neg (not_le.mpr hnd)]
  apply ucharOfReal_rounded_clamp fl hmono h0 h255
  have hnum : 0 ≤ fl (Cpx.mag2Rounded fl
      ((waveFields.getD c (fun _ => Cpx.zero)) (row * getResX s + col)) - mn) := by
    have := hmono (sub_nonneg.mpr (hmin row col hrow hcol))
    rwa [h0] at this
  have hden : 0 ≤ fl (fl (mx * getNor s) - mn) := by
    have := hmono (sub_nonneg.mpr (le_of_lt hnd))
    rwa [h0] at this
  have := hmono (div_nonneg hnum hden)
  rwa [h0] at this

/-- The squared magnitudes of the ramp field on the 3 x 1 grid are at least 0. -/
theorem ramp_min (r k : Nat) (_hr : r < 1) (_hk : k < 3) :
    (0 : ℚ) ≤ (rampField (r * 3 + k)).mag2 :=
  Cpx.mag2_nonneg _

/-- The squared magnitudes of the ramp field on the 3 x 1 grid are at most 4. -/
theorem ramp_max (r k : Nat) (hr : r < 1) (hk : k < 3) :
    (rampField (r * 3 + k)).mag2 ≤ (4 : ℚ) := by
  interval_cases r
  interval_cases k <;> norm_num [rampField, Cpx.mag2]

theorem ramp_minAt : ∃ r k, r < 1 ∧ k < 3 ∧ (rampField (r * 3 + k)).mag2 = (0 : ℚ) :=
  ⟨0, 0, by decide, by decide, by norm_num [rampField, Cpx.mag2]⟩

theorem ramp_maxAt : ∃ r k, r < 1 ∧ k < 3 ∧ (rampField (r * 3 + k)).mag2 = (4 : ℚ) :=
  ⟨0, 2, by decide, by decide, by norm_num [rampField, Cpx.mag2]⟩

theorem ramp_quarter :
    clamp01 (((rampField (0 * 3 + 1)).mag2 - 0) / (4 * (1 : ℚ) - 0)) = 1 / 4 := by
  have h1 : ((rampField (0 * 3 + 1)).mag2 - 0) / (4 * (1 : ℚ) - 0) = 1 / 4 := by
    norm_num [rampField, Cpx.mag2]
  rw [h1]
  unfold clamp01
  rw [min_eq_right (by norm_num : (1 / 4 : ℚ) ≤ 1), max_eq_right (by norm_num : (0 : ℚ) ≤ 1 / 4)]

theorem gridRound_intCast (n : Int) : gridRound (n : ℚ) = (n : ℚ) := by
  unfold gridRound
  have h : ⌊(n : ℚ) * 1024 + 1 / 2⌋ = n * 1024 := by
    rw [Int.floor_eq_iff]
    push_cast
    constructor <;> linarith
  rw [h]
  push_cast
  field_simp

/-- The stand-in rounding is monotone. -/
theorem gridRound_mono : Monotone gridRound := by
  intro x y hxy
  unfold gridRound
  have h : ⌊x * 1024 + 1 / 2⌋ ≤ ⌊y * 1024 + 1 / 2⌋ :=
    Int.floor_le_floor (by linarith)
  have h2 : ((⌊x * 1024 + 1 / 2⌋ : Int) : ℚ) ≤ ((⌊y * 1024 + 1 / 2⌋ : Int) : ℚ) :=
    Int.cast_le.mpr h
  exact div_le_div_of_nonneg_right h2 (by norm_num)

theorem gridRound_zero : gridRound 0 = 0 := by
  have := gridRound_intCast 0
  simpa using this

theorem gridRound_255 : gridRound 255 = 255 := by
  have := gridRound_intCast 255
  simpa using this

/-- The rounded squared magnitudes of the ramp field are the squares of the
indices: they are integers and the stand-in rounding keeps them. -/
theorem ramp_rounded_mag (i : Nat) :
    Cpx.mag2Rounded gridRound (rampField i) = (i : ℚ) * (i : ℚ) := by
  unfold Cpx.mag2Rounded rampField
  have h1 : gridRound ((i : ℚ) * (i : ℚ)) = (i : ℚ) * (i : ℚ) := by
    have := gridRound_intCast ((i : Int) * (i : Int))
    push_cast at this
    exact this
  have h2 : gridRound ((0 : ℚ) * 0) = 0 := by
    rw [mul_zero]
    exact gridRound_zero
  simp only [h1, h2, add_zero]

theorem ramp_rounded_min (r k : Nat) (_hr : r < 1) (_hk : k < 3) :
    (0 : ℚ) ≤ Cpx.mag2Rounded gridRound (rampField (r * 3 + k)) :=
  Cpx.mag2Rounded_nonneg gridRound gridRound_mono gridRound_zero _

theorem ramp_rounded_max (r k : Nat) (hr : r < 1) (hk : k < 3) :
    Cpx.mag2Rounded gridRound (rampField (r * 3 + k)) ≤ (4 : ℚ) := by
  rw [ramp_rounded_mag]
  interval_cases r
  interval_cases k <;> norm_num

theorem ramp_rounded_minAt :
    ∃ r k, r < 1 ∧ k < 3 ∧ Cpx.mag2Rounded gridRound (rampField (r * 3 + k)) = (0 : ℚ) :=
  ⟨0, 0, by decide, by decide, by rw [ramp_rounded_mag]; norm_num⟩

theorem ramp_rounded_maxAt :
    ∃ r k, r < 1 ∧ k < 3 ∧ Cpx.mag2Rounded gridRound (rampField (r * 3 + k)) = (4 : ℚ) :=
  ⟨0, 2, by decide, by decide, by rw [ramp_rounded_mag]; norm_num⟩

theorem gridRound_four : gridRound (4 * (1 : ℚ)) = 4 := by
  have := gridRound_intCast 4
  simpa using this

/-- C3, instance: on the 3 x 1 ramp field (squared magnitudes 0, 1, 4), with
`nor = 1` and the stand-in rounding, the middle pixel has `v = 1/4` and
`v * 255 = 63.75`, none of which the rounding changes, and its byte is 63. -/
theorem getIntensityfields_byte_truncated_witness :
    Monotone gridRound ∧ gridRound 0 = 0 ∧ gridRound 255 = 255
      ∧ (getNumColors (unitEngine 1 3 1 [rampField]) = 1
        ∨ getNumColors (unitEngine 1 3 1 [rampField]) = 3)
      ∧ (0 : ℚ) < gridRound (4 * getNor (unitEngine 1 3 1 [rampField]))
      ∧ ∃ img, getIntensityfieldsRounded gridRound ratEnv (unitEngine 1 3 1 [rampField])
            [rampField] = some img
          ∧ img.pix 1 = 63 := by
  have hnd : (0 : ℚ) < gridRound (4 * getNor (unitEngine 1 3 1 [rampField])) := by
    have e : gridRound (4 * getNor (unitEngine 1 3 1 [rampField])) = 4 := gridRound_four
    rw [e]
    norm_num
  refine ⟨gridRound_mono, gridRound_zero, gridRound_255, Or.inl rfl, hnd, ?_⟩
  obtain ⟨img, himg, hpix⟩ :=
    getIntensityfields_byte_truncated gridRound ratEnv (unitEngine 1 3 1 [rampField]) [rampField]
      0 0 1 0 4 gridRound_mono gridRound_zero gridRound_255
      (Or.inl rfl) (by decide) (by decide) (by decide)
      ramp_rounded_min ramp_rounded_minAt ramp_rounded_max ramp_rounded_maxAt
      (by norm_num [ratEnv, mathEnv]) hnd
  refine ⟨img, himg, ?_⟩
  have e : img.pix 1
      = ⌊gridRound (clamp01 (gridRound
          (gridRound (Cpx.mag2Rounded gridRound (rampField (0 * 3 + 1)) - 0)
            / gridRound (gridRound (4 * (1 : ℚ)) - 0))) * 255)⌋₊ := hpix
  rw [e, ramp_rounded_mag, gridRound_four]
  have h1 : gridRound (((((0 * 3 + 1 : Nat) : ℚ)) * (((0 * 3 + 1 : Nat) : ℚ))) - 0) = 1 := by
    have := gridRound_intCast 1
    simpa using this
  have h4 : gridRound ((4 : ℚ) - 0) = 4 := by
    have := gridRound_intCast 4
    simpa using this
  have hq : gridRound ((1 : ℚ) / 4) = 1 / 4 := by
    unfold gridRound
    norm_num [Int.floor_eq_iff]
  have hc : clamp01 ((1 : ℚ) / 4) = 1 / 4 := by
    unfold clamp01
    rw [min_eq_right (by norm_num : (1 / 4 : ℚ) ≤ 1),
      max_eq_right (by norm_num : (0 : ℚ) ≤ 1 / 4)]
  have hp : gridRound ((1 : ℚ) / 4 * 255) = 255 / 4 := by
    unfold gridRound
    norm_num [Int.floor_eq_iff]
  rw [h1, h4, hq, hc, hp]
  norm_num [Nat.floor_eq_iff]

/-- C3, counterexample: the byte is not `round(v * 255)`.  On the 3 x 1 ramp
field the middle pixel has `v * 255 = 63.75`; the extractor emits 63, the
rounded value is 64. -/
theorem getIntensityfields_byte_rounded_counterexample :
    ¬ ∀ (env : Env ℚ) (s : Engine ℚ) (waveFields : List (Wavefield ℚ)) (c row col : Nat)
        (mn mx : ℚ),
        (getNumColors s = 1 ∨ getNumColors s = 3) →
        c < getNumColors s → row < getResY s → col < getResX s →
        (∀ r k, r < getResY s → k < getResX s →
          mn ≤ ((waveFields.getD c (fun _ => Cpx.zero)) (r * getResX s + k)).mag2) →
        (∃ r k, r < getResY s ∧ k < getResX s ∧
          ((waveFields.getD c (fun _ => Cpx.zero)) (r * getResX s + k)).mag2 = mn) →
        (∀ r k, r < getResY s → k < getResX s →
          ((waveFields.getD c (fun _ => Cpx.zero)) (r * getResX s + k)).mag2 ≤ mx) →
        (∃ r k, r < getResY s ∧ k < getResX s ∧
          ((waveFields.getD c (fun _ => Cpx.zero)) (r * getResX s + k)).mag2 = mx) →
        mn ≤ env.REAL_MAX →
        mn < mx * getNor s →
        ∀ img, getIntensityfields env s waveFields = some img →
          (img.pix (((getResY s - 1 - row) * getResX s + (getResX s - 1 - col)) * getNumColors s
              + (getNumColors s - 1 - c)) : Int)
            = roundedByte (clamp01
                ((((waveFields.getD c (fun _ => Cpx.zero)) (row * getResX s + col)).mag2 - mn)
                  / (mx * getNor s - mn))) := by
  intro h
  obtain ⟨img, himg, _, hpix⟩ :=
    intensity_byte_floor ratEnv (unitEngine 1 3 1 [rampField]) [rampField] 0 0 1 0 4
      (Or.inl rfl) (by decide) (by decide) (by decide) ramp_min ramp_minAt ramp_max ramp_maxAt
      (by norm_num [ratEnv, mathEnv]) (by norm_num [getNor, unitEngine, unitConfig])
  have h2 := h ratEnv (unitEngine 1 3 1 [rampField]) [rampField] 0 0 1 0 4
      (Or.inl rfl) (by decide) (by decide) (by decide) ramp_min ramp_minAt ramp_max ramp_maxAt
      (by norm_num [ratEnv, mathEnv]) (by norm_num [getNor, unitEngine, unitConfig]) img himg
  have hv := ramp_quarter
  have e : img.pix 1 = ⌊clamp01 (((rampField (0 * 3 + 1)).mag2 - 0) / (4 * (1 : ℚ) - 0)) * 255⌋₊ :=
    hpix
  have e2 : (img.pix 1 : Int)
      = roundedByte (clamp01 (((rampField (0 * 3 + 1)).mag2 - 0) / (4 * (1 : ℚ) - 0))) := h2
  rw [e, hv] at e2
  have hfloor : ⌊(1 / 4 : ℚ) * 255⌋₊ = 63 := by norm_num [Nat.floor_eq_iff]
  have hround : roundedByte (1 / 4 : ℚ) = 64 := by
    unfold roundedByte
    norm_num [round_eq, Int.floor_eq_iff]
  rw [hfloor, hround] at e2
  exact absurd e2 (by decide)

/-- C8. Extreme mapping: for `numColors` 1 or 3, `nor = 1` and a channel whose
squared magnitudes have minimum `min` (not above `REAL_MAX`) strictly below
their maximum `max`, a pixel whose squared magnitude is `max` yields byte 255
and a pixel whose squared magnitude is `min` yields byte 0, at the output
index `((ny-1-row)*nx + (nx-1-col))*numColors + (numColors-1-c)`. -/
theorem getIntensityfields_extremes (env : Env R) (s : Engine R)
    (waveFields : List (Wavefield R)) (c row col : Nat) (mn mx : R)
    (hn : getNumColors s = 1 ∨ getNumColors s = 3)
    (hc : c < getNumColors s) (hrow : row < getResY s) (hcol : col < getResX s)
    (hmin : ∀ r k, r < getResY s → k < getResX s →
      mn ≤ ((waveFields.getD c (fun _ => Cpx.zero)) (r * getResX s + k)).mag2)
    (hminAt : ∃ r k, r < getResY s ∧ k < getResX s ∧
      ((waveFields.getD c (fun _ => Cpx.zero)) (r * getResX s + k)).mag2 = mn)
    (hmax : ∀ r k, r < getResY s → k < getResX s →
      ((waveFields.getD c (fun _ => Cpx.zero)) (r * getResX s + k)).mag2 ≤ mx)
    (hmaxAt : ∃ r k, r < getResY s ∧ k < getResX s ∧
      ((waveFields.getD c (fun _ => Cpx.zero)) (r * getResX s + k)).mag2 = mx)
    (hfin : mn ≤ env.REAL_MAX)
    (hnor : getNor s = 1)
    (hlt : mn < mx) :
    ∃ img, getIntensityfields env s waveFields = some img
      ∧ (((waveFields.getD c (fun _ => Cpx.zero)) (row * getResX s + col)).mag2 = mx →
          img.pix (((getResY s - 1 - row) * getResX s + (getResX s - 1 - col)) * getNumColors s
            + (getNumColors s - 1 - c)) = 255)
      ∧ (((waveFields.getD c (fun _ => Cpx.zero)) (row * getResX s + col)).mag2 = mn →
          img.pix (((getResY s - 1 - row) * getResX s + (getResX s - 1 - col)) * getNumColors s
            + (getNumColors s - 1 - c)) = 0) := by
  have hnd : mn < mx * getNor s := by rw [hnor, mul_one]; exact hlt
  obtain ⟨img, himg, _, hpix⟩ := intensity_byte_floor env s waveFields c row col mn mx
    hn hc hrow hcol hmin hminAt hmax hmaxAt hfin hnd
  refine ⟨img, himg, ?_, ?_⟩
  · intro hm
    rw [hpix, hm, hnor, mul_one, div_self (by linarith : mx - mn ≠ 0)]
    have : clamp01 (1 : R) = 1 := by
      unfold clamp01
      rw [min_self, max_eq_right zero_le_one]
    rw [this, one_mul]
    simp
  · intro hm
    rw [hpix, hm, sub_self, zero_div]
    have : clamp01 (0 : R) = 0 := by
      unfold clamp01
      rw [min_eq_right zero_le_one, max_self]
    rw [this, zero_mul]
    simp

/-- C8, instance: on the 3 x 1 ramp field with `nor = 1` the pixel of largest
squared magnitude, `(0, 2)`, gives byte 255 at output index 0, and the pixel of
smallest squared magnitude, `(0, 0)`, gives byte 0 at output index 2. -/
theorem getIntensityfields_extremes_witness :
    (getNumColors (unitEngine 1 3 1 [rampField]) = 1
        ∨ getNumColors (unitEngine 1 3 1 [rampField]) = 3)
      ∧ getNor (unitEngine 1 3 1 [rampField]) = 1
      ∧ ∃ img, getIntensityfields ratEnv (unitEngine 1 3 1 [rampField]) [rampField] = some img
          ∧ img.pix 0 = 255 ∧ img.pix 2 = 0 := by
  refine ⟨Or.inl rfl, rfl, ?_⟩
  obtain ⟨img, himg, hmaxPix, _⟩ :=
    getIntensityfields_extremes ratEnv (unitEngine 1 3 1 [rampField]) [rampField] 0 0 2 0 4
      (Or.inl rfl) (by decide) (by decide) (by decide) ramp_min ramp_minAt ramp_max ramp_maxAt
      (by norm_num [ratEnv, mathEnv]) rfl (by norm_num)
  obtain ⟨img2, himg2, _, hminPix⟩ :=
    getIntensityfields_extremes ratEnv (unitEngine 1 3 1 [rampField]) [rampField] 0 0 0 0 4
      (Or.inl rfl) (by decide) (by decide) (by decide) ramp_min ramp_minAt ramp_max ramp_maxAt
      (by norm_num [ratEnv, mathEnv]) rfl (by norm_num)
  have himgEq : img2 = img := Option.some.inj (himg2.symm.trans himg)
  subst himgEq
  refine ⟨img2, himg2, ?_, ?_⟩
  · exact hmaxPix (by norm_num [rampField, Cpx.mag2])
  · exact hminPix (by norm_num [rampField, Cpx.mag2])

end IntensityClaims


/-! ## The propagation stages -/

section StageLemmas

variable {R : Type} [LinearOrderedField R] [FloorRing R]

theorem Cpx.zero_mul (z : Cpx R) : (Cpx.zero : Cpx R).mul z = Cpx.zero := by
  simp [Cpx.mul, Cpx.zero]

/-- The row-major index of a pixel of the grid is below `nx * ny`. -/
theorem plainIndex_lt (nx ny r c : Nat) (hr : r < ny) (hc : c < nx) : r * nx + c < nx * ny := by
  have h1 : (r + 1) * nx ≤ ny * nx := Nat.mul_le_mul_right nx hr
  have h2 : (r + 1) * nx = r * nx + nx := by ring
  have h3 : ny * nx = nx * ny := Nat.mul_comm ny nx
  omega

/-- An index below `nx * ny` is the row-major index of a pixel of the grid. -/
theorem plainIndex_surj (nx ny j : Nat) (hj : j < nx * ny) :
    ∃ r c, r < ny ∧ c < nx ∧ j = r * nx + c := by
  have hnx : 0 < nx := by
    rcases Nat.eq_zero_or_pos nx with h0 | h0
    · subst h0; simp at hj
    · exact h0
  refine ⟨j / nx, j % nx, Nat.div_lt_of_lt_mul hj, Nat.mod_lt j hnx, ?_⟩
  rw [Nat.mul_comm]
  exact (Nat.div_add_mod j nx).symm

/-- The pixel body of `propagateSlmToPupil` rewrites the sample of its pixel. -/
theorem slmToPupilPixel_eq (env : Env R) (s : Engine R) (color row col : Nat)
    (buf : Wavefield R) :
    slmToPupilPixel env s color row col buf
      = Function.update buf (row * getResX s + col)
          (slmToPupilSample env s color row (coordX1 s color col) (coordY1 s color row)
            (buf (row * getResX s + col))) := by
  unfold slmToPupilPixel slmToPupilSample
  by_cases h : apertureBlocks env s row (coordX1 s color col) (coordY1 s color row)
  · simp [h]
  · simp [h]

/-- The pixel body of `propagatePupilToRetina` rewrites the sample of its pixel. -/
theorem pupilToRetinaPixel_eq (env : Env R) (s : Engine R) (color row col : Nat)
    (buf : Wavefield R) :
    pupilToRetinaPixel env s color row col buf
      = Function.update buf (row * getResX s + col)
          (pupilToRetinaSample env s color (coordX1 s color col) (coordY1 s color row)
            (buf (row * getResX s + col))) := by
  rfl

/-- The pixel loops of `propagateSlmToPupil`. -/
theorem slmToPupilLoops (env : Env R) (s : Engine R) (color : Nat) (buf : Wavefield R) :
    (∀ row col, row < getResY s → col < getResX s →
      forRange (getResY s) (fun row =>
        forRange (getResX s) (fun col b => slmToPupilPixel env s color row col b)) buf
        (row * getResX s + col)
        = slmToPupilSample env s color row (coordX1 s color col) (coordY1 s color row)
            (buf (row * getResX s + col)))
    ∧ (∀ j, getResX s * getResY s ≤ j →
      forRange (getResY s) (fun row =>
        forRange (getResX s) (fun col b => slmToPupilPixel env s color row col b)) buf j
        = buf j) := by
  have hbody : (fun row => forRange (getResX s)
        (fun col b => slmToPupilPixel env s color row col b))
      = (fun row => forRange (getResX s) (fun col (b : Wavefield R) =>
          Function.update b (row * getResX s + col)
            (slmToPupilSample env s color row (coordX1 s color col) (coordY1 s color row)
              (b (row * getResX s + col))))) := by
    funext row
    have hinner : (fun col b => slmToPupilPixel env s color row col b)
        = (fun col (b : Wavefield R) =>
            Function.update b (row * getResX s + col)
              (slmToPupilSample env s color row (coordX1 s color col) (coordY1 s color row)
                (b (row * getResX s + col)))) := by
      funext col b
      exact slmToPupilPixel_eq env s color row col b
    rw [hinner]
  rw [hbody]
  have key := pixelLoop_local (getResY s) (getResX s) (fun r c => r * getResX s + c)
    (fun r c b => slmToPupilSample env s color r (coordX1 s color c) (coordY1 s color r) b)
    (fun r c r2 c2 hr hc hr2 hc2 h => plainIndex_inj (getResX s) (getResY s) r c r2 c2 hr hc hr2 hc2 h)
    buf
  refine ⟨key.1, ?_⟩
  intro j hj
  apply key.2
  intro r c hr hc hcontra
  have := plainIndex_lt (getResX s) (getResY s) r c hr hc
  omega

/-- The pixel loops of `propagatePupilToRetina`. -/
theorem pupilToRetinaLoops (env : Env R) (s : Engine R) (color : Nat) (buf : Wavefield R) :
    (∀ row col, row < getResY s → col < getResX s →
      forRange (getResY s) (fun row =>
        forRange (getResX s) (fun col b => pupilToRetinaPixel env s color row col b)) buf
        (row * getResX s + col)
        = pupilToRetinaSample env s color (coordX1 s color col) (coordY1 s color row)
            (buf (row * getResX s + col)))
    ∧ (∀ j, getResX s * getResY s ≤ j →
      forRange (getResY s) (fun row =>
        forRange (getResX s) (fun col b => pupilToRetinaPixel env s color row col b)) buf j
        = buf j) := by
  have key := pixelLoop_local (getResY s) (getResX s) (fun r c => r * getResX s + c)
    (fun r c b => pupilToRetinaSample env s color (coordX1 s color c) (coordY1 s color r) b)
    (fun r c r2 c2 hr hc hr2 hc2 h => plainIndex_inj (getResX s) (getResY s) r c r2 c2 hr hc hr2 hc2 h)
    buf
  refine ⟨key.1, ?_⟩
  intro j hj
  apply key.2
  intro r c hr hc hcontra
  have := plainIndex_lt (getResX s) (getResY s) r c hr hc
  omega

/-- The sample of the new Pupil plane at a pixel of the grid. -/
theorem pupilPlane_sample (env : Env R) (s : Engine R) (color : Nat) (slm pupil : Wavefield R)
    (row col : Nat) (hrow : row < getResY s) (hcol : col < getResX s) :
    pupilPlane env s color slm pupil (row * getResX s + col)
      = slmToPupilSample env s color row (coordX1 s color col) (coordY1 s color row)
          (env.fft2 slm (getResX s) (getResY s) (row * getResX s + col)) := by
  unfold pupilPlane memcpy
  simp only [plainIndex_lt (getResX s) (getResY s) row col hrow hcol, if_true]
  exact (slmToPupilLoops env s color _).1 row col hrow hcol

/-- Beyond the grid the new Pupil plane keeps the samples of the old one. -/
theorem pupilPlane_beyond (env : Env R) (s : Engine R) (color : Nat) (slm pupil : Wavefield R)
    (j : Nat) (hj : getResX s * getResY s ≤ j) :
    pupilPlane env s color slm pupil j = pupil j := by
  unfold pupilPlane memcpy
  simp only [not_lt.mpr hj, if_false]

/-- The new Retina plane is the transform of the buffer that holds, at every
pixel of the grid, the Pupil sample times the propagation factor, and zero
beyond the grid. -/
theorem retinaPlane_eq (env : Env R) (s : Engine R) (color : Nat) (pupil : Wavefield R) :
    ∃ buf : Wavefield R,
      retinaPlane env s color pupil = env.fft2 buf (getResX s) (getResY s)
      ∧ (∀ row col, row < getResY s → col < getResX s →
          buf (row * getResX s + col)
            = pupilToRetinaSample env s color (coordX1 s color col) (coordY1 s color row)
                (pupil (row * getResX s + col)))
      ∧ (∀ j, getResX s * getResY s ≤ j → buf j = Cpx.zero) := by
  refine ⟨_, rfl, ?_, ?_⟩
  · intro row col hrow hcol
    rw [(pupilToRetinaLoops env s color _).1 row col hrow hcol]
    unfold memcpy
    simp only [plainIndex_lt (getResX s) (getResY s) row col hrow hcol, if_true]
  · intro j hj
    rw [(pupilToRetinaLoops env s color _).2 j hj]
    unfold memcpy
    simp only [not_lt.mpr hj, if_false]

theorem storeStep_some {α β : Type} (src : Option β) (F : β → α → α) (c : Nat) (l : List α)
    (a : β) (x : α) (hsrc : src = some a) (hx : l[c]? = some x) :
    storeStep src F c l = l.set c (F a x) := by
  unfold storeStep
  rw [hsrc, hx]

theorem storeStep_none {α β : Type} (src : Option β) (F : β → α → α) (c : Nat) (l : List α)
    (h : src = none ∨ l[c]? = none) :
    storeStep src F c l = l := by
  unfold storeStep
  rcases h with h | h
  · rw [h]
  · rw [h]
    cases src <;> rfl

/-- The loop over the channels of a store. -/
theorem forRange_storeStep {α β : Type} (src : Nat → Option β) (F : Nat → β → α → α)
    (l : List α) :
    ∀ n,
      (∀ c a x, c < n → src c = some a → l[c]? = some x →
        (forRange n (fun c l => storeStep (src c) (F c) c l) l)[c]? = some (F c a x))
      ∧ (∀ c, (n ≤ c ∨ src c = none ∨ l[c]? = none) →
        (forRange n (fun c l => storeStep (src c) (F c) c l) l)[c]? = l[c]?)
      ∧ (forRange n (fun c l => storeStep (src c) (F c) c l) l).length = l.length := by
  intro n
  induction n with
  | zero =>
    refine ⟨fun c a x hc => absurd hc (Nat.not_lt_zero c), fun c _ => ?_, ?_⟩
    · rw [forRange_zero]
    · rw [forRange_zero]
  | succ m ih =>
    obtain ⟨iha, ihb, ihl⟩ := ih
    rw [forRange_succ]
    generalize hprev : forRange m (fun c l => storeStep (src c) (F c) c l) l = prev at iha ihb ihl
    have hm : prev[m]? = l[m]? := ihb m (Or.inl (le_refl m))
    cases hs : src m with
    | none =>
      rw [storeStep_none _ _ _ _ (Or.inl rfl)]
      refine ⟨?_, ?_, ihl⟩
      · intro c a x hc hsrc hx
        rcases Nat.lt_succ_iff_lt_or_eq.mp hc with hlt | heq
        · exact iha c a x hlt hsrc hx
        · subst heq
          rw [hs] at hsrc
          cases hsrc
      · intro c hc
        rcases hc with hc | hc | hc
        · exact ihb c (Or.inl (by omega))
        · exact ihb c (Or.inr (Or.inl hc))
        · exact ihb c (Or.inr (Or.inr hc))
    | some a0 =>
      cases hl : l[m]? with
      | none =>
        rw [storeStep_none _ _ _ _ (Or.inr (hm.trans hl))]
        refine ⟨?_, ?_, ihl⟩
        · intro c a x hc hsrc hx
          rcases Nat.lt_succ_iff_lt_or_eq.mp hc with hlt | heq
          · exact iha c a x hlt hsrc hx
          · subst heq
            rw [hl] at hx
            cases hx
        · intro c hc
          rcases hc with hc | hc | hc
          · exact ihb c (Or.inl (by omega))
          · exact ihb c (Or.inr (Or.inl hc))
          · exact ihb c (Or.inr (Or.inr hc))
      | some x0 =>
        rw [storeStep_some _ _ _ _ a0 x0 rfl (hm.trans hl)]
        have hlen : m < prev.length := by
          have := List.getElem?_eq_some.mp (hm.trans hl)
          exact this.1
        refine ⟨?_, ?_, ?_⟩
        · intro c a x hc hsrc hx
          rcases Nat.lt_succ_iff_lt_or_eq.mp hc with hlt | heq
          · rw [List.getElem?_set_ne (by omega)]
            exact iha c a x hlt hsrc hx
          · subst heq
            rw [List.getElem?_set_self hlen]
            rw [hs] at hsrc
            rw [hl] at hx
            cases hsrc
            cases hx
            rfl
        · intro c hc
          have hne : m ≠ c := by
            rintro rfl
            rcases hc with hc | hc | hc
            · omega
            · rw [hs] at hc; cases hc
            · rw [hl] at hc; cases hc
          rw [List.getElem?_set_ne hne]
          rcases hc with hc | hc | hc
          · exact ihb c (Or.inl (by omega))
          · exact ihb c (Or.inr (Or.inl hc))
          · exact ihb c (Or.inr (Or.inr hc))
        · rw [List.length_set]
          exact ihl

theorem getElem?_guard {α : Type} (l : List α) (c : Nat) :
    (if l.length ≤ c then none else l[c]?) = l[c]? := by
  by_cases h : l.length ≤ c
  · rw [if_pos h, List.getElem?_eq_none h]
  · rw [if_neg h]

/-- The loop over `color` of `propagateSlmToPupil` changes the Pupil store only,
one channel per pass. -/
theorem slmToPupil_fold (env : Env R) (s : Engine R) :
    ∀ n, forRange n (fun color st => slmToPupilChannel env color st) s
      = { s with
          wavefield_pupil :=
            forRange n (fun c l =>
              storeStep (s.wavefield_SLM[c]?)
                (fun slm pupil => pupilPlane env s c slm pupil) c l) s.wavefield_pupil } := by
  intro n
  induction n with
  | zero => rfl
  | succ m ih =>
    rw [forRange_succ, forRange_succ, ih]
    generalize forRange m (fun c l =>
      storeStep (s.wavefield_SLM[c]?)
        (fun slm pupil => pupilPlane env s c slm pupil) c l) s.wavefield_pupil = prev
    unfold slmToPupilChannel getSlmWavefield getPupilWavefield storeStep
    simp only [getElem?_guard]
    cases s.wavefield_SLM[m]? with
    | none => rfl
    | some slm =>
      cases prev[m]? with
      | none => rfl
      | some pupil => rfl

/-- The loop over `color` of `propagatePupilToRetina` changes the Retina store
only, one channel per pass. -/
theorem pupilToRetina_fold (env : Env R) (s : Engine R) :
    ∀ n, forRange n (fun color st => pupilToRetinaChannel env color st) s
      = { s with
          wavefield_retina :=
            forRange n (fun c l =>
              storeStep (s.wavefield_pupil[c]?)
                (fun pupil _ => retinaPlane env s c pupil) c l) s.wavefield_retina } := by
  intro n
  induction n with
  | zero => rfl
  | succ m ih =>
    rw [forRange_succ, forRange_succ, ih]
    generalize forRange m (fun c l =>
      storeStep (s.wavefield_pupil[c]?)
        (fun pupil _ => retinaPlane env s c pupil) c l) s.wavefield_retina = prev
    unfold pupilToRetinaChannel getPupilWavefield getRetinaWavefield storeStep
    simp only [getElem?_guard]
    cases s.wavefield_pupil[m]? with
    | none => rfl
    | some pupil =>
      cases prev[m]? with
      | none => rfl
      | some retina => rfl

/-- Running the loop over the channels of a store twice gives what one run
gives, when the new plane does not change under a second overwrite. -/
theorem forRange_storeStep_idem {α β : Type} (src : Nat → Option β) (F : Nat → β → α → α)
    (hF : ∀ c a x, F c a (F c a x) = F c a x) (l : List α) (n : Nat) :
    forRange n (fun c l => storeStep (src c) (F c) c l)
        (forRange n (fun c l => storeStep (src c) (F c) c l) l)
      = forRange n (fun c l => storeStep (src c) (F c) c l) l := by
  obtain ⟨ha, hb, _⟩ := forRange_storeStep src F l n
  obtain ⟨ha2, hb2, _⟩ :=
    forRange_storeStep src F (forRange n (fun c l => storeStep (src c) (F c) c l) l) n
  apply List.ext_getElem?
  intro c
  by_cases hc : c < n
  · cases hs : src c with
    | none => exact hb2 c (Or.inr (Or.inl hs))
    | some a =>
      cases hl : l[c]? with
      | none =>
        have h1 := hb c (Or.inr (Or.inr hl))
        exact hb2 c (Or.inr (Or.inr (h1.trans hl)))
      | some x =>
        have h1 := ha c a x hc hs hl
        rw [ha2 c a (F c a x) hc hs h1, h1, hF]
  · exact hb2 c (Or.inl (by omega))

theorem memcpy_memcpy (dst src : Wavefield R) (n : Nat) :
    memcpy (memcpy dst src n) src n = memcpy dst src n := by
  funext i
  unfold memcpy
  by_cases h : i < n
  · simp [h]
  · simp [h]

theorem pupilPlane_idem (env : Env R) (s : Engine R) (c : Nat) (slm pupil : Wavefield R) :
    pupilPlane env s c slm (pupilPlane env s c slm pupil) = pupilPlane env s c slm pupil := by
  unfold pupilPlane
  exact memcpy_memcpy _ _ _

/-- What `propagateSlmToPupil` returns: success, and the state with a new Pupil
store. -/
theorem propagateSlmToPupil_eq (env : Env R) (s : Engine R) :
    propagateSlmToPupil env s
      = (true, { s with
          wavefield_pupil :=
            forRange (getNumColors s) (fun c l =>
              storeStep (s.wavefield_SLM[c]?)
                (fun slm pupil => pupilPlane env s c slm pupil) c l) s.wavefield_pupil }) := by
  unfold propagateSlmToPupil
  rw [slmToPupil_fold]

/-- What `propagatePupilToRetina` returns: success, and the state with a new
Retina store. -/
theorem propagatePupilToRetina_eq (env : Env R) (s : Engine R) :
    propagatePupilToRetina env s
      = (true, { s with
          wavefield_retina :=
            forRange (getNumColors s) (fun c l =>
              storeStep (s.wavefield_pupil[c]?)
                (fun pupil _ => retinaPlane env s c pupil) c l) s.wavefield_retina }) := by
  unfold propagatePupilToRetina
  rw [pupilToRetina_fold]

/-- A second run of `propagateSlmToPupil` changes nothing. -/
theorem propagateSlmToPupil_idem (env : Env R) (s : Engine R) :
    (propagateSlmToPupil env (propagateSlmToPupil env s).2).2 = (propagateSlmToPupil env s).2 := by
  rw [propagateSlmToPupil_eq env s]
  rw [propagateSlmToPupil_eq]
  have h := forRange_storeStep_idem (fun c => s.wavefield_SLM[c]?)
    (fun c slm pupil => pupilPlane env s c slm pupil)
    (fun c a x => pupilPlane_idem env s c a x) s.wavefield_pupil (getNumColors s)
  show ({ s with wavefield_pupil := _ } : Engine R) = _
  congr 1

/-- A second run of `propagatePupilToRetina` changes nothing. -/
theorem propagatePupilToRetina_idem (env : Env R) (s : Engine R) :
    (propagatePupilToRetina env (propagatePupilToRetina env s).2).2
      = (propagatePupilToRetina env s).2 := by
  rw [propagatePupilToRetina_eq env s]
  rw [propagatePupilToRetina_eq]
  have h := forRange_storeStep_idem (fun c => s.wavefield_pupil[c]?)
    (fun c pupil (_ : Wavefield R) => retinaPlane env s c pupil)
    (fun c a x => rfl) s.wavefield_retina (getNumColors s)
  show ({ s with wavefield_retina := _ } : Engine R) = _
  congr 1

/-- The result of `propagateSlmToPupil` does not depend on the Retina store,
which it leaves in place. -/
theorem propagateSlmToPupil_retina (env : Env R) (s : Engine R) (X : List (Wavefield R)) :
    (propagateSlmToPupil env { s with wavefield_retina := X }).2
      = { (propagateSlmToPupil env s).2 with wavefield_retina := X } := by
  rw [propagateSlmToPupil_eq, propagateSlmToPupil_eq]
  rfl

/-- After `propagatePupilToRetina`, a run of `propagateSlmToPupil` on a state
that came out of `propagateSlmToPupil` changes nothing. -/
theorem propagateSlmToPupil_after (env : Env R) (s : Engine R) :
    (propagateSlmToPupil env
        (propagatePupilToRetina env (propagateSlmToPupil env s).2).2).2
      = (propagatePupilToRetina env (propagateSlmToPupil env s).2).2 := by
  rw [propagatePupilToRetina_eq env (propagateSlmToPupil env s).2]
  show (propagateSlmToPupil env { (propagateSlmToPupil env s).2 with wavefield_retina := _ }).2 = _
  rw [propagateSlmToPupil_retina, propagateSlmToPupil_idem]

theorem propagateSlmToPupil_fst (env : Env R) (s : Engine R) :
    (propagateSlmToPupil env s).1 = true := rfl

theorem propagatePupilToRetina_fst (env : Env R) (s : Engine R) :
    (propagatePupilToRetina env s).1 = true := rfl

/-- What `propagate` returns on a ready engine. -/
theorem propagate_ready (env : Env R) (s : Engine R) (h : isReadyToPropagate s = true) :
    propagate env s
      = (true, (propagatePupilToRetina env (propagateSlmToPupil env s).2).2) := by
  unfold propagate
  simp [h, propagateSlmToPupil_fst, propagatePupilToRetina_fst]

/-- What `propagate` returns on an engine that is not ready. -/
theorem propagate_not_ready (env : Env R) (s : Engine R) (h : isReadyToPropagate s = false) :
    propagate env s = (false, s) := by
  unfold propagate
  simp [h]

theorem propagateSlmToPupil_ready (env : Env R) (s : Engine R) :
    isReadyToPropagate (propagateSlmToPupil env s).2 = isReadyToPropagate s := by
  rw [propagateSlmToPupil_eq]
  rfl

theorem propagatePupilToRetina_ready (env : Env R) (s : Engine R) :
    isReadyToPropagate (propagatePupilToRetina env s).2 = isReadyToPropagate s := by
  rw [propagatePupilToRetina_eq]
  rfl

/-- Running `propagate` on its own result returns that result again. -/
theorem propagate_twice (env : Env R) (s : Engine R) :
    propagate env (propagate env s).2 = propagate env s := by
  cases h : isReadyToPropagate s with
  | false =>
    rw [propagate_not_ready env s h]
    exact propagate_not_ready env s h
  | true =>
    rw [propagate_ready env s h]
    have h2 : isReadyToPropagate
        (propagatePupilToRetina env (propagateSlmToPupil env s).2).2 = true := by
      rw [propagatePupilToRetina_ready, propagateSlmToPupil_ready]
      exact h
    rw [propagate_ready env _ h2, propagateSlmToPupil_after, propagatePupilToRetina_idem]

end StageLemmas



/-! ## Claims about the propagation stages -/

section StageClaims

variable {R : Type} [LinearOrderedField R] [FloorRing R]

/-- The Pupil plane of a channel after `propagateSlmToPupil`. -/
theorem pupil_lookup (env : Env R) (s : Engine R) (c : Nat) (slm pupil : Wavefield R)
    (hc : c < getNumColors s) (hslm : s.wavefield_SLM[c]? = some slm)
    (hp : s.wavefield_pupil[c]? = some pupil) :
    (propagateSlmToPupil env s).2.wavefield_pupil[c]? = some (pupilPlane env s c slm pupil) := by
  rw [propagateSlmToPupil_eq]
  exact (forRange_storeStep (fun c => s.wavefield_SLM[c]?)
    (fun c slm pupil => pupilPlane env s c slm pupil) s.wavefield_pupil (getNumColors s)).1
    c slm pupil hc hslm hp

/-- The Retina plane of a channel after `propagatePupilToRetina`. -/
theorem retina_lookup (env : Env R) (s : Engine R) (c : Nat) (pupil retina : Wavefield R)
    (hc : c < getNumColors s) (hp : s.wavefield_pupil[c]? = some pupil)
    (hr : s.wavefield_retina[c]? = some retina) :
    (propagatePupilToRetina env s).2.wavefield_retina[c]? = some (retinaPlane env s c pupil) := by
  rw [propagatePupilToRetina_eq]
  exact (forRange_storeStep (fun c => s.wavefield_pupil[c]?)
    (fun c pupil (_ : Wavefield R) => retinaPlane env s c pupil) s.wavefield_retina
    (getNumColors s)).1 c pupil retina hc hp hr

/-- C10. Idempotence of propagation: running `propagate` on its own result
returns that result again.  `propagateSlmToPupil` changes the Pupil store only
and its result does not depend on the Retina store; the new Pupil plane of a
stored channel is computed from the SLM plane of that channel and, on the grid,
does not depend on the old Pupil plane.
`propagatePupilToRetina` changes the Retina store only and its result does not
depend on the SLM store; the new Retina plane of a stored channel is computed
from the Pupil plane of that channel.  Neither changes the SLM store. -/
theorem propagate_idempotent (env : Env R) (s : Engine R) :
    propagate env (propagate env s).2 = propagate env s
    ∧ (propagateSlmToPupil env s).2
        = { s with wavefield_pupil := (propagateSlmToPupil env s).2.wavefield_pupil }
    ∧ (propagatePupilToRetina env s).2
        = { s with wavefield_retina := (propagatePupilToRetina env s).2.wavefield_retina }
    ∧ (propagateSlmToPupil env s).2.wavefield_SLM = s.wavefield_SLM
    ∧ (propagatePupilToRetina env s).2.wavefield_SLM = s.wavefield_SLM
    ∧ (∀ X : List (Wavefield R),
        (propagateSlmToPupil env { s with wavefield_retina := X }).2.wavefield_pupil
          = (propagateSlmToPupil env s).2.wavefield_pupil)
    ∧ (∀ X : List (Wavefield R),
        (propagatePupilToRetina env { s with wavefield_SLM := X }).2.wavefield_retina
          = (propagatePupilToRetina env s).2.wavefield_retina)
    ∧ (∀ c slm pupil, c < getNumColors s → s.wavefield_SLM[c]? = some slm →
        s.wavefield_pupil[c]? = some pupil →
        (propagateSlmToPupil env s).2.wavefield_pupil[c]? = some (pupilPlane env s c slm pupil))
    ∧ (∀ c pupil retina, c < getNumColors s → s.wavefield_pupil[c]? = some pupil →
        s.wavefield_retina[c]? = some retina →
        (propagatePupilToRetina env s).2.wavefield_retina[c]?
          = some (retinaPlane env s c pupil))
    ∧ (∀ c slm pupil pupil2 j, j < getResX s * getResY s →
        pupilPlane env s c slm pupil j = pupilPlane env s c slm pupil2 j) := by
  refine ⟨propagate_twice env s, ?_, ?_, ?_, ?_, ?_, ?_, ?_, ?_, ?_⟩
  · rw [propagateSlmToPupil_eq]
  · rw [propagatePupilToRetina_eq]
  · rw [propagateSlmToPupil_eq]
  · rw [propagatePupilToRetina_eq]
  · intro X
    rw [propagateSlmToPupil_retina]
  · intro X
    rw [propagatePupilToRetina_eq, propagatePupilToRetina_eq]
    rfl
  · intro c slm pupil hc hslm hp
    exact pupil_lookup env s c slm pupil hc hslm hp
  · intro c pupil retina hc hp hr
    exact retina_lookup env s c pupil retina hc hp hr
  · intro c slm pupil pupil2 j hj
    unfold pupilPlane memcpy
    simp only [hj, if_true]

theorem coords_explicit (s : Engine R) (c row col : Nat) :
    pitchDx1 s c
        = getWavelengths s c * getFieldLensFocalLength s / (getPixelPitchX s * (getResX s : R))
    ∧ pitchDy1 s c
        = getWavelengths s c * getFieldLensFocalLength s / (getPixelPitchX s * (getResY s : R))
    ∧ coordX1 s c col
        = ((col : R) - ((getResX s : R) - 1) / 2)
          * (getWavelengths s c * getFieldLensFocalLength s
              / (getPixelPitchX s * (getResX s : R)))
    ∧ coordY1 s c row
        = ((row : R) - ((getResY s : R) - 1) / 2)
          * (getWavelengths s c * getFieldLensFocalLength s
              / (getPixelPitchX s * (getResY s : R))) := by
  unfold coordX1 coordY1 pitchDx1 pitchDy1 pitchVw
  refine ⟨div_div _ _ _, div_div _ _ _, ?_, ?_⟩
  · rw [div_div, mul_one_div]
  · rw [div_div, mul_one_div]

/-- C7, as amended. Spectral-domain pitch in both stages: for every
configuration and every channel with wavelength `λ` the horizontal pitch is
`dx1 = (λ f)/(pixelPitchX nx)` and the vertical pitch is
`dy1 = (λ f)/(pixelPitchX ny)`; the centred coordinates of pixel `(row, col)`
are `X1 = (col - (nx-1)/2) dx1` and `Y1 = (row - (ny-1)/2) dy1`, and these are
the coordinates from which Stage A computes the Pupil sample of the pixel and
Stage B the sample it transforms into the Retina plane. -/
theorem pitch_per_axis (env : Env R) (s : Engine R) (c row col : Nat)
    (slm pupil retina : Wavefield R)
    (hc : c < getNumColors s) (hrow : row < getResY s) (hcol : col < getResX s)
    (hslm : getSlmWavefield s c = some slm) (hp : getPupilWavefield s c = some pupil)
    (hr : getRetinaWavefield s c = some retina) :
    pitchDx1 s c
        = getWavelengths s c * getFieldLensFocalLength s / (getPixelPitchX s * (getResX s : R))
    ∧ pitchDy1 s c
        = getWavelengths s c * getFieldLensFocalLength s / (getPixelPitchX s * (getResY s : R))
    ∧ (∃ q, getPupilWavefield (propagateSlmToPupil env s).2 c = some q
        ∧ q (row * getResX s + col)
          = slmToPupilSample env s c row
              (((col : R) - ((getResX s : R) - 1) / 2)
                * (getWavelengths s c * getFieldLensFocalLength s
                    / (getPixelPitchX s * (getResX s : R))))
              (((row : R) - ((getResY s : R) - 1) / 2)
                * (getWavelengths s c * getFieldLensFocalLength s
                    / (getPixelPitchX s * (getResY s : R))))
              (env.fft2 slm (getResX s) (getResY s) (row * getResX s + col)))
    ∧ (∃ buf, getRetinaWavefield (propagatePupilToRetina env s).2 c
          = some (env.fft2 buf (getResX s) (getResY s))
        ∧ buf (row * getResX s + col)
          = pupilToRetinaSample env s c
              (((col : R) - ((getResX s : R) - 1) / 2)
                * (getWavelengths s c * getFieldLensFocalLength s
                    / (getPixelPitchX s * (getResX s : R))))
              (((row : R) - ((getResY s : R) - 1) / 2)
                * (getWavelengths s c * getFieldLensFocalLength s
                    / (getPixelPitchX s * (getResY s : R))))
              (pupil (row * getResX s + col))) := by
  obtain ⟨e1, e2, e3, e4⟩ := coords_explicit s c row col
  unfold getSlmWavefield at hslm
  unfold getPupilWavefield at hp
  unfold getRetinaWavefield at hr
  rw [getElem?_guard] at hslm hp hr
  refine ⟨e1, e2, ?_, ?_⟩
  · refine ⟨pupilPlane env s c slm pupil, ?_, ?_⟩
    · unfold getPupilWavefield
      rw [getElem?_guard]
      exact pupil_lookup env s c slm pupil hc hslm hp
    · rw [← e3, ← e4]
      exact pupilPlane_sample env s c slm pupil row col hrow hcol
  · obtain ⟨buf, hbuf, hin, _⟩ := retinaPlane_eq env s c pupil
    refine ⟨buf, ?_, ?_⟩
    · unfold getRetinaWavefield
      rw [getElem?_guard, ← hbuf]
      exact retina_lookup env s c pupil retina hc hp hr
    · rw [← e3, ← e4]
      exact hin row col hrow hcol

/-- C7, instance: on the 1 x 2 grid with unit wavelength, focal length and
pixel pitch the horizontal pitch is 1 and the vertical pitch is 1/2. -/
theorem pitch_per_axis_witness :
    (0 < getNumColors (unitEngine 1 1 2 [onesField])
        ∧ 0 < getResY (unitEngine 1 1 2 [onesField])
        ∧ 0 < getResX (unitEngine 1 1 2 [onesField]))
      ∧ pitchDx1 (unitEngine 1 1 2 [onesField]) 0 = 1
      ∧ pitchDy1 (unitEngine 1 1 2 [onesField]) 0 = 1 / 2 := by
  obtain ⟨e1, e2, _, _⟩ :=
    pitch_per_axis ratEnv (unitEngine 1 1 2 [onesField]) 0 0 0 onesField
      (fun _ => Cpx.zero) (fun _ => Cpx.zero) (by decide) (by decide) (by decide) rfl rfl rfl
  refine ⟨⟨by decide, by decide, by decide⟩, ?_, ?_⟩
  · rw [e1]
    norm_num [getWavelengths, getFieldLensFocalLength, getPixelPitchX, getResX, unitEngine,
      unitConfig]
  · rw [e2]
    norm_num [getWavelengths, getFieldLensFocalLength, getPixelPitchX, getResY, unitEngine,
      unitConfig]

/-- C7, counterexample: the pitch is not the same on both axes.  On the 1 x 2
grid with unit wavelength, focal length and pixel pitch, `dx1 = 1` and
`dy1 = 1/2`, and `Y1` of row 0 is `-1/4`, not `(0 - (2-1)/2) * 1 = -1/2`. -/
theorem pitch_equal_counterexample :
    ¬ ∀ (s : Engine ℚ) (c row col : Nat),
        c < getNumColors s → row < getResY s → col < getResX s →
        pitchDx1 s c
            = getWavelengths s c * getFieldLensFocalLength s
                / (getPixelPitchX s * (getResX s : ℚ))
          ∧ pitchDy1 s c
            = getWavelengths s c * getFieldLensFocalLength s
                / (getPixelPitchX s * (getResX s : ℚ))
          ∧ coordX1 s c col
            = ((col : ℚ) - ((getResX s : ℚ) - 1) / 2)
              * (getWavelengths s c * getFieldLensFocalLength s
                  / (getPixelPitchX s * (getResX s : ℚ)))
          ∧ coordY1 s c row
            = ((row : ℚ) - ((getResY s : ℚ) - 1) / 2)
              * (getWavelengths s c * getFieldLensFocalLength s
                  / (getPixelPitchX s * (getResX s : ℚ))) := by
  intro h
  have h2 := (h (unitEngine 1 1 2 [onesField]) 0 0 0 (by decide) (by decide) (by decide)).2.2.2
  norm_num [coordY1, pitchDy1, pitchVw, getWavelengths, getFieldLensFocalLength,
    getPixelPitchX, getResX, getResY, unitEngine, unitConfig] at h2

/-- Aperture correctness for grids of at least two rows: a pixel `(row, col)`
with `sqrt(X1² + Y1²) >= pupilDiameter / 2` or `row >= ny / 2 - 1` has the
Pupil sample `(0, 0)` after Stage A. -/
theorem aperture_zero_two_rows (env : Env R) (s : Engine R) (c row col : Nat)
    (slm pupil : Wavefield R)
    (hc : c < getNumColors s) (hrow : row < getResY s) (hcol : col < getResX s)
    (hslm : getSlmWavefield s c = some slm) (hp : getPupilWavefield s c = some pupil)
    (hny : 2 ≤ getResY s) (huint : getResY s < uintModulus)
    (hblock : env.sqrt (coordX1 s c col * coordX1 s c col + coordY1 s c row * coordY1 s c row)
          ≥ getPupilDiameter s / 2
        ∨ (row : Int) ≥ ((getResY s / 2 : Nat) : Int) - 1) :
    ∃ q, getPupilWavefield (propagateSlmToPupil env s).2 c = some q
      ∧ q (row * getResX s + col) = Cpx.zero := by
  unfold getSlmWavefield at hslm
  unfold getPupilWavefield at hp
  rw [getElem?_guard] at hslm hp
  refine ⟨pupilPlane env s c slm pupil, ?_, ?_⟩
  · unfold getPupilWavefield
    rw [getElem?_guard]
    exact pupil_lookup env s c slm pupil hc hslm hp
  · rw [pupilPlane_sample env s c slm pupil row col hrow hcol]
    have hap : apertureBlocks env s row (coordX1 s c col) (coordY1 s c row) := by
      unfold apertureBlocks
      rcases hblock with h | h
      · exact Or.inl h
      · right
        unfold uintSub
        unfold uintModulus at huint ⊢
        omega
    unfold slmToPupilSample
    rw [if_pos hap]
    exact Cpx.zero_mul _

/-- On a grid of one row the bound `ny / 2 - 1` of the aperture test wraps
around to `4294967295` and the half-plane part of the test never holds. -/
theorem aperture_halfplane_one_row (env : Env R) (s : Engine R) (row : Nat) (X1 Y1 : R)
    (hny : getResY s = 1) (hrow : row < getResY s) :
    apertureBlocks env s row X1 Y1
      ↔ env.sqrt (X1 * X1 + Y1 * Y1) ≥ getPupilDiameter s / 2 := by
  unfold apertureBlocks
  rw [hny] at hrow ⊢
  have hw : uintSub (1 / 2) 1 = 4294967295 := by decide
  rw [hw]
  constructor
  · rintro (h | h)
    · exact h
    · omega
  · intro h
    exact Or.inl h

/-- On a grid of one row a pixel inside the circular aperture keeps its
sample: Stage A commits the product of the transformed SLM sample with the two
chirp factors, not `(0, 0)`. -/
theorem pupil_sample_one_row (env : Env R) (s : Engine R) (c col : Nat)
    (slm pupil : Wavefield R)
    (hc : c < getNumColors s) (hny : getResY s = 1) (hcol : col < getResX s)
    (hslm : getSlmWavefield s c = some slm) (hp : getPupilWavefield s c = some pupil)
    (hin : env.sqrt (coordX1 s c col * coordX1 s c col + coordY1 s c 0 * coordY1 s c 0)
      < getPupilDiameter s / 2) :
    ∃ q, getPupilWavefield (propagateSlmToPupil env s).2 c = some q
      ∧ q (0 * getResX s + col)
        = (((Cpx.expI env (waveNumber env s c / 2 / getFieldLensFocalLength s
                * (coordX1 s c col * coordX1 s c col + coordY1 s c 0 * coordY1 s c 0))).div
              ⟨0, getWavelengths s c * getFieldLensFocalLength s⟩).mul
            (env.fft2 slm (getResX s) (getResY s) (0 * getResX s + col))).mul
          (Cpx.expI env ((-waveNumber env s c) / 2 / focalEye s
            * (coordX1 s c col * coordX1 s c col + coordY1 s c 0 * coordY1 s c 0))) := by
  unfold getSlmWavefield at hslm
  unfold getPupilWavefield at hp
  rw [getElem?_guard] at hslm hp
  have hrow : 0 < getResY s := by rw [hny]; decide
  refine ⟨pupilPlane env s c slm pupil, ?_, ?_⟩
  · unfold getPupilWavefield
    rw [getElem?_guard]
    exact pupil_lookup env s c slm pupil hc hslm hp
  · rw [pupilPlane_sample env s c slm pupil 0 col hrow hcol]
    have hap : ¬ apertureBlocks env s 0 (coordX1 s c col) (coordY1 s c 0) := by
      rw [aperture_halfplane_one_row env s 0 _ _ hny hrow]
      exact not_le.mpr hin
    unfold slmToPupilSample
    rw [if_neg hap]

/-- C1, at the failing input: on the 1 x 1 grid (unit wavelength, focal length
and pitch, pupil diameter 4, SLM sample 1) the pixel `(0, 0)` satisfies
`row >= ny / 2 - 1` as the claim reads it (`0 >= -1`), but on `oph::uint` the
bound `ny / 2 - 1` is `4294967295`; the aperture test fails and Stage A leaves
the sample `(0, -1)` in the Pupil plane. -/
theorem aperture_one_row :
    getResY (unitEngine 1 1 1 [onesField]) = 1
    ∧ ((0 : Nat) : Int) ≥ ((getResY (unitEngine 1 1 1 [onesField]) / 2 : Nat) : Int) - 1
    ∧ uintSub (getResY (unitEngine 1 1 1 [onesField]) / 2) 1 = 4294967295
    ∧ ∃ q, getPupilWavefield (propagateSlmToPupil ratEnv (unitEngine 1 1 1 [onesField])).2 0
          = some q
        ∧ q (0 * getResX (unitEngine 1 1 1 [onesField]) + 0) = ⟨0, -1⟩
        ∧ q (0 * getResX (unitEngine 1 1 1 [onesField]) + 0) ≠ Cpx.zero := by
  have hX : coordX1 (unitEngine 1 1 1 [onesField]) 0 0 = 0 := by
    norm_num [coordX1, getResX, unitEngine, unitConfig]
  have hY : coordY1 (unitEngine 1 1 1 [onesField]) 0 0 = 0 := by
    norm_num [coordY1, getResY, unitEngine, unitConfig]
  have hfft : ratEnv.fft2 onesField (getResX (unitEngine 1 1 1 [onesField]))
      (getResY (unitEngine 1 1 1 [onesField]))
      (0 * getResX (unitEngine 1 1 1 [onesField]) + 0) = ⟨1, 0⟩ := by
    simp [ratEnv, mathEnv, dft2, forRange, List.range_succ, getResX, getResY, unitEngine, unitConfig,
      onesField, Cpx.add, Cpx.mul, Cpx.zero, ratCos, ratSin]
  have hap : ¬ apertureBlocks ratEnv (unitEngine 1 1 1 [onesField]) 0 0 0 := by
    unfold apertureBlocks uintSub uintModulus
    simp [ratEnv, mathEnv, ratSqrt, getPupilDiameter, getResY, unitEngine, unitConfig]
  have hq : pupilPlane ratEnv (unitEngine 1 1 1 [onesField]) 0 onesField (fun _ => Cpx.zero)
      (0 * getResX (unitEngine 1 1 1 [onesField]) + 0) = ⟨0, -1⟩ := by
    rw [pupilPlane_sample ratEnv (unitEngine 1 1 1 [onesField]) 0 onesField (fun _ => Cpx.zero)
      0 0 (by decide) (by decide), hX, hY, hfft]
    unfold slmToPupilSample
    rw [if_neg hap]
    simp [Cpx.expI, Cpx.div, Cpx.mul, ratEnv, mathEnv, ratCos, ratSin, getWavelengths,
      getFieldLensFocalLength, unitEngine, unitConfig]
  refine ⟨rfl, by decide, by decide, pupilPlane ratEnv (unitEngine 1 1 1 [onesField]) 0 onesField
    (fun _ => Cpx.zero), ?_, hq, ?_⟩
  · unfold getPupilWavefield
    rw [getElem?_guard]
    exact pupil_lookup ratEnv (unitEngine 1 1 1 [onesField]) 0 onesField (fun _ => Cpx.zero)
      (by decide) rfl rfl
  · rw [hq]
    intro hcontra
    have := congrArg Cpx.im hcontra
    norm_num [Cpx.zero] at this

/-- In the end-to-end scenario the aperture test holds at every pixel of the
4 x 4 grid: in rows 1 to 3 by `row >= ny / 2 - 1 = 1`, in row 0 because
`|Y1| = 0.0049875` exceeds the pupil radius `0.002`. -/
theorem scenario_aperture (env : Env R) (s : Engine R) (hsqrt : SqrtExact env)
    (hcfg : s.config_ = scenarioConfig) (row col : Nat) (_hrow : row < 4) (_hcol : col < 4) :
    apertureBlocks env s row (coordX1 s 0 col) (coordY1 s 0 row) := by
  unfold apertureBlocks
  rcases Nat.eq_zero_or_pos row with h0 | hpos
  · left
    subst h0
    have hY : coordY1 s 0 0 = -(39900 / 8000000 : R) := by
      unfold coordY1 pitchDy1 pitchVw getResY getWavelengths getFieldLensFocalLength
        getPixelPitchX
      rw [hcfg]
      simp only [scenarioConfig]
      norm_num
    have hD : getPupilDiameter s / 2 = (2 / 1000 : R) := by
      unfold getPupilDiameter
      rw [hcfg]
      simp only [scenarioConfig]
      norm_num
    rw [hY, hD]
    have hx : (0 : R) ≤ coordX1 s 0 col * coordX1 s 0 col
        + -(39900 / 8000000 : R) * -(39900 / 8000000 : R) := by
      have := mul_self_nonneg (coordX1 s 0 col)
      have h2 : (0 : R) ≤ -(39900 / 8000000 : R) * -(39900 / 8000000 : R) := by norm_num
      linarith
    obtain ⟨hr0, hr1⟩ := hsqrt _ hx
    by_contra hlt
    have hlt2 := not_le.mp hlt
    have h3 : env.sqrt (coordX1 s 0 col * coordX1 s 0 col
        + -(39900 / 8000000 : R) * -(39900 / 8000000 : R))
        * env.sqrt (coordX1 s 0 col * coordX1 s 0 col
        + -(39900 / 8000000 : R) * -(39900 / 8000000 : R)) < (2 / 1000 : R) * (2 / 1000) :=
      mul_self_lt_mul_self hr0 hlt2
    rw [hr1] at h3
    have h4 := mul_self_nonneg (coordX1 s 0 col)
    have h5 : (2 / 1000 : R) * (2 / 1000) < -(39900 / 8000000 : R) * -(39900 / 8000000 : R) := by
      norm_num
    linarith
  · right
    have hny : getResY s = 4 := by
      unfold getResY
      rw [hcfg]
      rfl
    rw [hny]
    have : uintSub (4 / 2) 1 = 1 := by decide
    rw [this]
    exact hpos

/-- C9. End-to-end scenario: for a ready engine with the scenario
configuration (`numColors = 1`, wavelength 532e-9, pixel pitch 8e-6,
resolution 4 x 4, focal length 0.2, distances 0.05 and 0.024, pupil diameter
0.004, `nor = 1`), one SLM plane of all ones and one Pupil and one Retina
plane, with `sqrt` the square root and a transform that maps the zero field to
the zero field, `propagate` returns success and the intensity image of the
Retina plane has the same byte at `(row, col)` and at `(3 - row, 3 - col)`. -/
theorem endToEnd_symmetric (env : Env R) (s : Engine R) (pupil retina : Wavefield R)
    (hsqrt : SqrtExact env) (hfft : TransformZero env)
    (hcfg : s.config_ = scenarioConfig) (hready : isReadyToPropagate s = true)
    (hslm : s.wavefield_SLM = [fun _ => ⟨1, 0⟩])
    (hp : s.wavefield_pupil = [pupil]) (hr : s.wavefield_retina = [retina]) :
    (propagate env s).1 = true
    ∧ ∃ img, getIntensityfields env (propagate env s).2
          (getRetinaWavefieldAll (propagate env s).2) = some img
        ∧ ∀ row col, row < 4 → col < 4 →
          img.pix (row * 4 + col) = img.pix ((3 - row) * 4 + (3 - col)) := by
  have hnc : getNumColors s = 1 := by unfold getNumColors; rw [hcfg]; rfl
  have hnx : getResX s = 4 := by unfold getResX; rw [hcfg]; rfl
  have hny : getResY s = 4 := by unfold getResY; rw [hcfg]; rfl
  rw [propagate_ready env s hready]
  -- the state after Stage A
  have hs1 : (propagateSlmToPupil env s).2.config_ = s.config_
      ∧ (propagateSlmToPupil env s).2.wavefield_retina = s.wavefield_retina := by
    rw [propagateSlmToPupil_eq]
    exact ⟨rfl, rfl⟩
  have hP := pupil_lookup env s 0 (fun _ => ⟨1, 0⟩) pupil (by rw [hnc]; decide)
    (by rw [hslm]; rfl) (by rw [hp]; rfl)
  have hPzero : ∀ row col, row < 4 → col < 4 →
      pupilPlane env s 0 (fun _ => ⟨1, 0⟩) pupil (row * 4 + col) = Cpx.zero := by
    intro row col hrow hcol
    have h1 := pupilPlane_sample env s 0 (fun _ => ⟨1, 0⟩) pupil row col
      (by rw [hny]; exact hrow) (by rw [hnx]; exact hcol)
    rw [hnx] at h1
    rw [h1]
    unfold slmToPupilSample
    rw [if_pos (scenario_aperture env s hsqrt hcfg row col hrow hcol)]
    exact Cpx.zero_mul _
  generalize hs1def : (propagateSlmToPupil env s).2 = s1 at hs1 hP
  have hnc1 : getNumColors s1 = 1 := by unfold getNumColors; rw [hs1.1, hcfg]; rfl
  have hnx1 : getResX s1 = 4 := by unfold getResX; rw [hs1.1, hcfg]; rfl
  have hny1 : getResY s1 = 4 := by unfold getResY; rw [hs1.1, hcfg]; rfl
  -- the state after Stage B
  have hs2 : (propagatePupilToRetina env s1).2.config_ = s1.config_ := by
    rw [propagatePupilToRetina_eq]
  have hRet := retina_lookup env s1 0 (pupilPlane env s 0 (fun _ => ⟨1, 0⟩) pupil) retina
    (by rw [hnc1]; decide) hP (by rw [hs1.2, hr]; rfl)
  have hZ : retinaPlane env s1 0 (pupilPlane env s 0 (fun _ => ⟨1, 0⟩) pupil)
      = fun _ => Cpx.zero := by
    obtain ⟨buf, hbuf, hin, hout⟩ :=
      retinaPlane_eq env s1 0 (pupilPlane env s 0 (fun _ => ⟨1, 0⟩) pupil)
    have hbufz : buf = fun _ => Cpx.zero := by
      funext j
      by_cases hj : j < getResX s1 * getResY s1
      · obtain ⟨r, c, hr2, hc2, e⟩ := plainIndex_surj (getResX s1) (getResY s1) j hj
        rw [e, hin r c hr2 hc2]
        rw [hny1] at hr2
        rw [hnx1] at hc2 ⊢
        rw [hPzero r c hr2 hc2]
        unfold pupilToRetinaSample
        exact Cpx.zero_mul _
      · exact hout j (not_lt.mp hj)
    rw [hbuf, hbufz]
    exact hfft _ _
  rw [hZ] at hRet
  generalize hs2def : (propagatePupilToRetina env s1).2 = s2 at hs2 hRet
  have hnc2 : getNumColors s2 = 1 := by unfold getNumColors; rw [hs2, hs1.1, hcfg]; rfl
  have hnx2 : getResX s2 = 4 := by unfold getResX; rw [hs2, hs1.1, hcfg]; rfl
  have hny2 : getResY s2 = 4 := by unfold getResY; rw [hs2, hs1.1, hcfg]; rfl
  have hwf : (getRetinaWavefieldAll s2).getD 0 (fun _ => Cpx.zero) = fun _ => Cpx.zero := by
    unfold getRetinaWavefieldAll
    rw [List.getD_eq_getElem?_getD, hRet]
    rfl
  obtain ⟨img, himg, _, hpix⟩ :=
    getIntensityfields_pix env s2 (getRetinaWavefieldAll s2) (Or.inl hnc2)
  refine ⟨rfl, img, himg, ?_⟩
  intro row col hrow hcol
  have h1 := hpix 0 (3 - row) (3 - col) (by rw [hnc2]; decide) (by rw [hny2]; omega)
    (by rw [hnx2]; omega)
  have h2 := hpix 0 row col (by rw [hnc2]; decide) (by rw [hny2]; omega) (by rw [hnx2]; omega)
  rw [hwf] at h1 h2
  rw [hnc2, hnx2, hny2] at h1 h2
  have e1 : ((4 - 1 - (3 - row)) * 4 + (4 - 1 - (3 - col))) * 1 + (1 - 1 - 0)
      = row * 4 + col := by omega
  have e2 : ((4 - 1 - row) * 4 + (4 - 1 - col)) * 1 + (1 - 1 - 0)
      = (3 - row) * 4 + (3 - col) := by omega
  rw [e1] at h1
  rw [e2] at h2
  rw [h1, h2]

/-- The discrete Fourier transform of the zero field is the zero field. -/
theorem dft2_zero (cos sin : R → R) (pi : R) (nx ny : Nat) :
    dft2 cos sin pi (fun _ => Cpx.zero) nx ny = fun _ => Cpx.zero := by
  funext idx
  unfold dft2
  apply forRange_invariant (fun acc : Cpx R => acc = Cpx.zero)
  · rfl
  · intro row _ acc hacc
    apply forRange_invariant (fun acc : Cpx R => acc = Cpx.zero)
    · exact hacc
    · intro col _ acc2 hacc2
      rw [hacc2]
      simp [Cpx.add, Cpx.mul, Cpx.zero]

/-- C9, instance: over the real numbers, with the real square root, cosine and
sine and the discrete Fourier transform, the scenario engine propagates
successfully and its intensity image is symmetric under the 180-degree
rotation. -/
theorem endToEnd_symmetric_witness :
    SqrtExact (mathEnv Real.sqrt Real.cos Real.sin Real.pi)
    ∧ TransformZero (mathEnv Real.sqrt Real.cos Real.sin Real.pi)
    ∧ (propagate (mathEnv Real.sqrt Real.cos Real.sin Real.pi) scenarioEngine).1 = true
    ∧ ∃ img, getIntensityfields (mathEnv Real.sqrt Real.cos Real.sin Real.pi)
          (propagate (mathEnv Real.sqrt Real.cos Real.sin Real.pi) scenarioEngine).2
          (getRetinaWavefieldAll
            (propagate (mathEnv Real.sqrt Real.cos Real.sin Real.pi) scenarioEngine).2)
          = some img
        ∧ ∀ row col, row < 4 → col < 4 →
          img.pix (row * 4 + col) = img.pix ((3 - row) * 4 + (3 - col)) := by
  have hsqrt : SqrtExact (mathEnv Real.sqrt Real.cos Real.sin Real.pi) := by
    intro x hx
    exact ⟨Real.sqrt_nonneg x, Real.mul_self_sqrt hx⟩
  have hfft : TransformZero (mathEnv Real.sqrt Real.cos Real.sin Real.pi) := by
    intro nx ny
    exact dft2_zero Real.cos Real.sin Real.pi nx ny
  exact ⟨hsqrt, hfft,
    endToEnd_symmetric (mathEnv Real.sqrt Real.cos Real.sin Real.pi) scenarioEngine
      (fun _ => Cpx.zero) (fun _ => Cpx.zero) hsqrt hfft rfl rfl rfl rfl rfl⟩

end StageClaims





/-! ## Claims about construction and the wavefield store -/

section StoreClaims

variable {R : Type} [LinearOrderedField R] [FloorRing R]

/-- C5, at the failing input: the configuration names a container source and
the base-class loader fails on it.  `loadAsOhc` then executes `return -1;`,
which its return type `bool` turns into `true`: the constructed engine is
ready, `propagate` runs the stages and returns success, and the SLM plane
still holds the zeros of `allocateMem`. -/
theorem construct_ready_after_failed_load :
    missingContainer.loadAsOhc "hologram.ohc" = none
    ∧ (construct missingContainer blankMembers "config.xml").sourcetype_ = SourceType.OHC
    ∧ (construct missingContainer blankMembers "config.xml").hologram_path = "hologram.ohc"
    ∧ (loadAsOhc missingContainer (construct missingContainer blankMembers "config.xml")
        "hologram.ohc").1 = true
    ∧ isReadyToPropagate (construct missingContainer blankMembers "config.xml") = true
    ∧ (propagate ratEnv (construct missingContainer blankMembers "config.xml")).1 = true
    ∧ (construct missingContainer blankMembers "config.xml").wavefield_SLM
        = [fun _ => Cpx.zero] := by
  refine ⟨rfl, ?_, ?_, ?_, ?_, ?_, ?_⟩
  · decide
  · decide
  · decide
  · decide
  · rw [propagate_ready]
    decide
  · rfl

/-- When the base-class loader fails, `loadAsOhc` reports success and leaves
the state as it is. -/
theorem loadAsOhc_failed_load (files : Files R) (s : Engine R) (fname : String)
    (h : files.loadAsOhc fname = none) :
    loadAsOhc files s fname = (true, s) := by
  unfold loadAsOhc
  rw [h]
  rfl

/-- Whenever the configuration validates, names a container source, and the
base-class loader fails on the hologram path, the constructed engine is ready. -/
theorem construct_ready_of_failed_container (files : Files R) (members : Engine R)
    (path : String) (s1 : Engine R)
    (hcfg : readConfig files
        { members with
          ready_to_propagate := false
          hologram_path := ""
          wavefield_SLM := []
          wavefield_pupil := []
          wavefield_retina := []
          complex_H := [] } path = (true, s1))
    (hsrc : (allocateMem s1).2.sourcetype_ = SourceType.OHC)
    (hload : files.loadAsOhc (allocateMem s1).2.hologram_path = none) :
    isReadyToPropagate (construct files members path) = true := by
  have hne : ¬ (allocateMem s1).2.sourcetype_ = SourceType.IMG := by
    rw [hsrc]
    decide
  have hfst : (allocateMem s1).1 = true := rfl
  unfold construct
  simp only [hcfg, hfst, if_true, hne, if_false, hsrc,
    loadAsOhc_failed_load files _ _ hload]
  rfl

theorem vectorResize_length {α : Type} (v : List α) (n : Nat) (d : α) :
    (vectorResize v n d).length = n := by
  unfold vectorResize
  rw [List.length_append, List.length_take, List.length_replicate]
  omega

theorem allocate_loop (n : Nat) (fresh : Wavefield R) (s0 : Engine R)
    (h : s0.wavefield_SLM.length = n ∧ s0.wavefield_pupil.length = n
      ∧ s0.wavefield_retina.length = n ∧ getNumColors s0 = n) :
    StoreInvariant (forRange n (fun i (st : Engine R) =>
      { st with
        wavefield_SLM := st.wavefield_SLM.set i fresh
        wavefield_pupil := st.wavefield_pupil.set i fresh
        wavefield_retina := st.wavefield_retina.set i fresh
        complex_H := st.complex_H.set i fresh }) s0) := by
  have key := forRange_invariant (fun st : Engine R =>
    st.wavefield_SLM.length = n ∧ st.wavefield_pupil.length = n
      ∧ st.wavefield_retina.length = n ∧ getNumColors st = n) n
    (fun i (st : Engine R) =>
      { st with
        wavefield_SLM := st.wavefield_SLM.set i fresh
        wavefield_pupil := st.wavefield_pupil.set i fresh
        wavefield_retina := st.wavefield_retina.set i fresh
        complex_H := st.complex_H.set i fresh }) s0 h
    (by
      intro i _ st hst
      refine ⟨?_, ?_, ?_, hst.2.2.2⟩
      · show (st.wavefield_SLM.set i fresh).length = n
        rw [List.length_set]; exact hst.1
      · show (st.wavefield_pupil.set i fresh).length = n
        rw [List.length_set]; exact hst.2.1
      · show (st.wavefield_retina.set i fresh).length = n
        rw [List.length_set]; exact hst.2.2.1)
  exact ⟨key.1.trans key.2.2.2.symm, key.2.1.trans key.2.2.2.symm,
    key.2.2.1.trans key.2.2.2.symm⟩

/-- The store invariant holds after `allocateMem`. -/
theorem allocateMem_invariant (s : Engine R) : StoreInvariant (allocateMem s).2 := by
  unfold allocateMem
  exact allocate_loop (getNumColors s) (fun _ => Cpx.zero) _
    ⟨vectorResize_length _ _ _, vectorResize_length _ _ _, vectorResize_length _ _ _, rfl⟩

/-- The two stages and `propagate` keep the store invariant. -/
theorem propagate_invariant (env : Env R) (s : Engine R) (h : StoreInvariant s) :
    StoreInvariant (propagateSlmToPupil env s).2
    ∧ StoreInvariant (propagatePupilToRetina env s).2
    ∧ StoreInvariant (propagate env s).2 := by
  have hA : ∀ t : Engine R, StoreInvariant t → StoreInvariant (propagateSlmToPupil env t).2 := by
    intro t ht
    rw [propagateSlmToPupil_eq]
    refine ⟨ht.1, ?_, ht.2.2⟩
    exact ((forRange_storeStep (fun c => t.wavefield_SLM[c]?)
      (fun c slm pupil => pupilPlane env t c slm pupil) t.wavefield_pupil
      (getNumColors t)).2.2).trans ht.2.1
  have hB : ∀ t : Engine R, StoreInvariant t → StoreInvariant (propagatePupilToRetina env t).2 := by
    intro t ht
    rw [propagatePupilToRetina_eq]
    refine ⟨ht.1, ht.2.1, ?_⟩
    exact ((forRange_storeStep (fun c => t.wavefield_pupil[c]?)
      (fun c pupil (_ : Wavefield R) => retinaPlane env t c pupil) t.wavefield_retina
      (getNumColors t)).2.2).trans ht.2.2
  refine ⟨hA s h, hB s h, ?_⟩
  cases hr : isReadyToPropagate s with
  | false =>
    rw [propagate_not_ready env s hr]
    exact h
  | true =>
    rw [propagate_ready env s hr]
    exact hB _ (hA s h)

theorem writeSample_length (v : List (Wavefield R)) (channel idx : Nat) (z : Cpx R) :
    (writeSample v channel idx z).length = v.length := by
  unfold writeSample
  cases v[channel]? with
  | none => rfl
  | some plane => exact List.length_set _ _ _

/-- The image loader `loadInputImg` keeps the store invariant. -/
theorem loadInputImg_invariant (files : Files R) (s : Engine R) (path : String)
    (h : StoreInvariant s) : StoreInvariant (loadInputImg files s path).2 := by
  unfold loadInputImg
  by_cases hext : files.checkExtension path ".bmp" = true
  · simp only [hext, Bool.not_true, Bool.false_eq_true, if_false]
    cases files.loadAsImgUpSideDown path with
    | none => exact h
    | some data =>
      apply forRange_invariant (fun st : Engine R => StoreInvariant st) _ _ _ h
      intro row _ st hst
      apply forRange_invariant (fun st : Engine R => StoreInvariant st) _ _ _ hst
      intro col _ st2 hst2
      apply forRange_invariant (fun st : Engine R => StoreInvariant st) _ _ _ hst2
      intro color _ st3 hst3
      refine ⟨?_, hst3.2.1, hst3.2.2⟩
      show (writeSample st3.wavefield_SLM _ _ _).length = _
      rw [writeSample_length]
      exact hst3.1
  · simp only [hext, Bool.not_false, if_true]
    exact h

/-- Under the store invariant the accessors return a plane exactly for the
channels below `getNumColors()`. -/
theorem accessors_of_invariant (s : Engine R) (h : StoreInvariant s) (c : Nat) :
    ((getSlmWavefield s c).isSome = true ↔ c < getNumColors s)
    ∧ ((getPupilWavefield s c).isSome = true ↔ c < getNumColors s)
    ∧ ((getRetinaWavefield s c).isSome = true ↔ c < getNumColors s) := by
  have key : ∀ l : List (Wavefield R), l.length = getNumColors s →
      ((if l.length ≤ c then none else l[c]?).isSome = true ↔ c < getNumColors s) := by
    intro l hl
    rw [getElem?_guard, ← hl]
    constructor
    · intro hs
      by_contra hc
      rw [List.getElem?_eq_none (not_lt.mp hc)] at hs
      cases hs
    · intro hc
      rw [List.getElem?_eq_getElem hc]
      rfl
  exact ⟨key _ h.1, key _ h.2.1, key _ h.2.2⟩

/-- C6, at the failing input: after `allocateMem` for one channel the store
invariant holds; `loadAsOhc` of a container with three wavelengths sets
`num_colors` to 3 and leaves the stores at one plane each, so the invariant is
broken and `getSlmWavefield(1)` is the null pointer although
`1 < getNumColors()`. -/
theorem loadAsOhc_breaks_invariant :
    StoreInvariant (allocateMem (unitEngine 1 2 2 [])).2
    ∧ getNumColors (allocateMem (unitEngine 1 2 2 [])).2 = 1
    ∧ (loadAsOhc threeWavelengths (allocateMem (unitEngine 1 2 2 [])).2 "hologram.ohc").1 = true
    ∧ getNumColors
        (loadAsOhc threeWavelengths (allocateMem (unitEngine 1 2 2 [])).2 "hologram.ohc").2 = 3
    ∧ (loadAsOhc threeWavelengths (allocateMem (unitEngine 1 2 2 [])).2
        "hologram.ohc").2.wavefield_SLM.length = 1
    ∧ (loadAsOhc threeWavelengths (allocateMem (unitEngine 1 2 2 [])).2
        "hologram.ohc").2.wavefield_pupil.length = 1
    ∧ (loadAsOhc threeWavelengths (allocateMem (unitEngine 1 2 2 [])).2
        "hologram.ohc").2.wavefield_retina.length = 1
    ∧ getSlmWavefield
        (loadAsOhc threeWavelengths (allocateMem (unitEngine 1 2 2 [])).2 "hologram.ohc").2 1
        = none
    ∧ ¬ StoreInvariant
        (loadAsOhc threeWavelengths (allocateMem (unitEngine 1 2 2 [])).2 "hologram.ohc").2 := by
  refine ⟨allocateMem_invariant _, by decide, by decide, by decide, by decide, by decide,
    by decide, rfl, ?_⟩
  intro h
  have h1 := h.1
  have h2 : (loadAsOhc threeWavelengths (allocateMem (unitEngine 1 2 2 [])).2
      "hologram.ohc").2.wavefield_SLM.length = 1 := by decide
  have h3 : getNumColors
      (loadAsOhc threeWavelengths (allocateMem (unitEngine 1 2 2 [])).2 "hologram.ohc").2 = 3 := by
    decide
  rw [h2, h3] at h1
  exact absurd h1 (by decide)

end StoreClaims


end Openholo
